import Mathlib

/-!
Verification of the odmantic mapping engine (src/odmantic/model.py).

A shallow embedding of the object-document mapping core:

* raw documents and materialized instances are association lists from
  strings to `Value` (python dicts keyed by strings);
* the per-class schema derived by `ModelMetaclass.__new__` is embedded as
  the function `derive` over an explicit class body;
* the instance codec `Model.parse_doc` / `Model.doc` is embedded as
  `parse_doc` / `doc`.

Parts of the repository that `model.py` imports but that are not part of
the mapping core source (odmantic/fields.py, odmantic/reference.py,
odmantic/types.py) and the external validation engine (pydantic) are
modelled from the specification where noted.
-/

set_option autoImplicit false

namespace Odmantic

/-- A BSON-like runtime value: identifiers, strings, integers, booleans and
nested documents (python dicts keyed by strings).  This is the value
universe flowing through pydantic materialization and the raw documents. -/
inductive Value where
  | vid (n : Nat)
  | vstr (s : String)
  | vint (n : Int)
  | vbool (b : Bool)
  | vdoc (entries : List (String × Value))

/-- First-match lookup in an association list (python `d[k]` / `d.get(k)`
on dicts; dicts hold each key once, so first-match agrees with dict
lookup). -/
def alookup {α : Type} : List (String × α) → String → Option α
  | [], _ => none
  | (k, v) :: t, key => if k = key then some v else alookup t key

/-- Python dict update `d[k] = v`: replaces the value in place if the key
is present (keeping its position), otherwise appends the binding. -/
def dictInsert {α : Type} : List (String × α) → String → α → List (String × α)
  | [], k, v => [(k, v)]
  | (k', v') :: t, k, v =>
    if k' = k then (k, v) :: t else (k', v') :: dictInsert t k v

mutual

/-- The odmantic.fields / odmantic.reference field descriptors: a tagged
variant over plain fields (`ODMField`: `primary_field`, `key_name`) and
reference fields (`ODMReference`: `key_name`, target `model`), mirroring
`ODMBaseField` and its two subclasses.  The target model of a reference is
the referenced class together with its derived class attributes
(`__odm_fields__`, `__bson_serialized_fields__` and the pydantic field
defaults), embedded as `ModelSchema`. -/
inductive ODMBaseField where
  | field (primary_field : Bool) (key_name : String) : ODMBaseField
  | reference (key_name : String) (model : ModelSchema) : ODMBaseField

inductive ModelSchema where
  | mk (odm_fields : List (String × ODMBaseField))
       (bson_serialized_fields : List String)
       (defaults : List (String × Value)) : ModelSchema

end

/-- `key_name` of a descriptor (defined on both variants of
`ODMBaseField`, as in odmantic.fields). -/
def ODMBaseField.key_name : ODMBaseField → String
  | .field _ k => k
  | .reference k _ => k

/-- Whether a descriptor is a primary plain field. -/
def ODMBaseField.isPrimary : ODMBaseField → Bool
  | .field p _ => p
  | .reference _ _ => false

/-- `__odm_fields__` of a schema. -/
def ModelSchema.odm_fields : ModelSchema → List (String × ODMBaseField)
  | .mk f _ _ => f

/-- `__bson_serialized_fields__` of a schema. -/
def ModelSchema.bson_serialized_fields : ModelSchema → List String
  | .mk _ b _ => b

/-- The pydantic-level per-field defaults of the class (part of the
external validation engine's configuration). -/
def ModelSchema.defaults : ModelSchema → List (String × Value)
  | .mk _ _ d => d

/-- Runtime errors of the codec: `keyError k` models a python `KeyError`
on a missing dict key `k`; `notADocument k` models the `TypeError` python
raises when the value found for `k` is subscripted or recursed into but is
not a dict; `validationError k` models a pydantic `ValidationError` on
field `k`. -/
inductive DocError where
  | keyError (k : String)
  | notADocument (k : String)
  | validationError (k : String)

/-- Modelled from the spec: the value-validation engine's standard
"construct and validate from field values" operation (pydantic
`parse_obj`), specified as: for each declared field take the supplied
value, coercing a custom-serialized field's storage representation back to
its semantic value (`fromBson`, the validator that the missing
odmantic/types.py `BSONSerializedField` subclasses install), fall back to
the field's pydantic default when the value is absent, and fail with a
validation error otherwise. -/
def parse_obj_fields (fromBson : String → Value → Value)
    (bson : List String) (defaults : List (String × Value)) :
    List (String × ODMBaseField) → List (String × Value) →
    Except DocError (List (String × Value))
  | [], _ => .ok []
  | (fname, _) :: rest, d =>
    match alookup d fname with
    | some v =>
      match parse_obj_fields fromBson bson defaults rest d with
      | .error e => .error e
      | .ok tail =>
        .ok ((fname, if bson.contains fname then fromBson fname v else v) :: tail)
    | none =>
      match alookup defaults fname with
      | some dv =>
        match parse_obj_fields fromBson bson defaults rest d with
        | .error e => .error e
        | .ok tail => .ok ((fname, dv) :: tail)
      | none => .error (.validationError fname)

mutual

/-- The field loop of `Model.parse_doc`, see `parse_doc`: for each declared field look up
`raw_doc[field.key_name]` (a missing key is a fatal `KeyError`); for a
reference descriptor recursively decode the nested raw sub-document with
the target model's `parse_doc`, otherwise take the raw value as-is.  The
accumulated mapping is keyed by field names. -/
def parse_fields (fromBson : String → Value → Value) :
    List (String × ODMBaseField) → List (String × Value) →
    Except DocError (List (String × Value))
  | [], _ => .ok []
  | (fname, f) :: rest, raw =>
    match f with
    | .field _ key =>
      match alookup raw key with
      | none => .error (.keyError key)
      | some v =>
        match parse_fields fromBson rest raw with
        | .error e => .error e
        | .ok tail => .ok ((fname, v) :: tail)
    | .reference key target =>
      match alookup raw key with
      | none => .error (.keyError key)
      | some v =>
        match v with
        | .vdoc sub =>
          match parse_doc fromBson target sub with
          | .error e => .error e
          | .ok nested =>
            match parse_fields fromBson rest raw with
            | .error e => .error e
            | .ok tail => .ok ((fname, .vdoc nested) :: tail)
        | _ => .error (.notADocument key)

/-- `Model.parse_doc`: build the field-name-keyed mapping from the raw
document, then delegate to the validation engine's `parse_obj`
(`parse_obj_fields`). -/
def parse_doc (fromBson : String → Value → Value) :
    ModelSchema → List (String × Value) → Except DocError (List (String × Value))
  | .mk fl bson defaults, raw =>
    match parse_fields fromBson fl raw with
    | .error e => .error e
    | .ok d => parse_obj_fields fromBson bson defaults fl d

end

/-- The field loop of `Model.doc` over the materialized instance
(`self.dict()`, an association list keyed by field names in which a
reference field holds the nested instance as a `vdoc` keyed by the nested
model's field names).  For a reference descriptor the code emits
`raw_doc[field_name]["id"]` — the nested mapping's entry at the literal
key `"id"` —, for a custom-serialized field it emits
`type_.to_bson(raw_doc[field_name])` (the per-field conversion `toBson`
declared by the missing odmantic/types.py value types), and otherwise the
materialized value unchanged, each under the descriptor's `key_name`. -/
def doc_fields (toBson : String → Value → Value) (bson : List String) :
    List (String × ODMBaseField) → List (String × Value) →
    Except DocError (List (String × Value))
  | [], _ => .ok []
  | (fname, f) :: rest, inst =>
    match f with
    | .reference key _ =>
      match alookup inst fname with
      | none => .error (.keyError fname)
      | some v =>
        match v with
        | .vdoc sub =>
          match alookup sub "id" with
          | none => .error (.keyError "id")
          | some idv =>
            match doc_fields toBson bson rest inst with
            | .error e => .error e
            | .ok tail => .ok ((key, idv) :: tail)
        | _ => .error (.notADocument fname)
    | .field _ key =>
      match alookup inst fname with
      | none => .error (.keyError fname)
      | some v =>
        match doc_fields toBson bson rest inst with
        | .error e => .error e
        | .ok tail =>
          .ok ((key, if bson.contains fname then toBson fname v else v) :: tail)

/-- `Model.doc`: generate the raw document representation of a
materialized instance. -/
def doc (toBson : String → Value → Value) (m : ModelSchema)
    (inst : List (String × Value)) : Except DocError (List (String × Value)) :=
  doc_fields toBson m.bson_serialized_fields m.odm_fields inst

/-- python `str.startswith`, computed structurally on the character
lists. -/
def strStartsWith (s pre : String) : Bool :=
  pre.data.isPrefixOf s.data

/-- python `str.endswith`, computed structurally on the character
lists. -/
def strEndsWith (s post : String) : Bool :=
  post.data.reverse.isPrefixOf s.data.reverse

/-- python `s[:-n]` (for `0 < n ≤ len(s)`): drop the last `n`
characters. -/
def strDropRight (s : String) (n : Nat) : String :=
  ⟨s.data.take (s.data.length - n)⟩

/-- `is_valid_odm_field`: dunder-like names are never schema fields. -/
def is_valid_odm_field (name : String) : Bool :=
  !strStartsWith name "__" && !strEndsWith name "__"

/-- One step of `find_duplicate_key`, with the `seen` set of already
visited key names carried explicitly. -/
def find_duplicate_key_go (seen : List String) :
    List ODMBaseField → Option String
  | [] => none
  | f :: t =>
    if seen.contains f.key_name then some f.key_name
    else find_duplicate_key_go (f.key_name :: seen) t

/-- `find_duplicate_key`: the first `key_name` occurring twice in the
field descriptors, if any. -/
def find_duplicate_key (fields : List ODMBaseField) : Option String :=
  find_duplicate_key_go [] fields

/-- ASCII `[A-Z]` (the character class of the snake-case regexes). -/
def isUpperAscii (c : Char) : Bool :=
  65 ≤ c.toNat && c.toNat ≤ 90

/-- ASCII `[a-z]`. -/
def isLowerAscii (c : Char) : Bool :=
  97 ≤ c.toNat && c.toNat ≤ 122

/-- ASCII `[a-z0-9]`. -/
def isLowerDigitAscii (c : Char) : Bool :=
  isLowerAscii c || (48 ≤ c.toNat && c.toNat ≤ 57)

/-- Maximal `[a-z]*` run at the head of the character list, with the
remaining suffix (the greedy `[a-z]+` part of the first regex). -/
def lowerSpan : List Char → List Char × List Char
  | [] => ([], [])
  | c :: t =>
    if isLowerAscii c then
      let p := lowerSpan t
      (c :: p.1, p.2)
    else ([], c :: t)

/-- Whether the head character is ASCII lowercase. -/
def headIsLower : List Char → Bool
  | [] => false
  | c :: _ => isLowerAscii c

theorem lowerSpan_snd_length : ∀ l : List Char, (lowerSpan l).2.length ≤ l.length := by
  intro l
  induction l with
  | nil => simp [lowerSpan]
  | cons c t ih =>
    by_cases h : isLowerAscii c = true
    · simp only [lowerSpan, h, if_pos, List.length_cons]
      omega
    · simp [lowerSpan, h]

/-- `re.sub("(.)([A-Z][a-z]+)", r"\1_\2", s)` on the character list:
scanning left to right, at a match (any character, then an uppercase
letter followed by a non-empty greedy lowercase run) an underscore is
inserted after the first character and scanning resumes after the run.
The fuel argument only bounds the recursion structurally; with fuel =
list length (as `sub1` passes) it never runs out, since every step
consumes at least one character. -/
def sub1Fuel : Nat → List Char → List Char
  | 0, l => l
  | _, [] => []
  | _, [c] => [c]
  | fuel + 1, c1 :: c2 :: rest =>
    if isUpperAscii c2 && headIsLower rest then
      c1 :: '_' :: c2 :: (lowerSpan rest).1 ++ sub1Fuel fuel (lowerSpan rest).2
    else
      c1 :: sub1Fuel fuel (c2 :: rest)

/-- The first regex substitution of `to_snake_case`. -/
def sub1 (l : List Char) : List Char :=
  sub1Fuel l.length l

/-- `re.sub("([a-z0-9])([A-Z])", r"\1_\2", s)` on the character list,
with the same structural fuel bound. -/
def sub2Fuel : Nat → List Char → List Char
  | 0, l => l
  | _, [] => []
  | _, [c] => [c]
  | fuel + 1, c1 :: c2 :: rest =>
    if isLowerDigitAscii c1 && isUpperAscii c2 then
      c1 :: '_' :: c2 :: sub2Fuel fuel rest
    else
      c1 :: sub2Fuel fuel (c2 :: rest)

/-- The second regex substitution of `to_snake_case`. -/
def sub2 (l : List Char) : List Char :=
  sub2Fuel l.length l

/-- ASCII lowering of a character (python `str.lower` on ASCII input). -/
def toLowerAscii (c : Char) : Char :=
  if isUpperAscii c then Char.ofNat (c.toNat + 32) else c

/-- `to_snake_case`: the two regex substitutions followed by lowering. -/
def to_snake_case (s : String) : String :=
  ⟨(sub2 (sub1 s.data)).map toLowerAscii⟩

/-- The class-name part of collection derivation: a trailing literal
`"Model"` is stripped (`cls_name[:-5]`). -/
def stripModelSuffix (s : String) : String :=
  if strEndsWith s "Model" then (strDropRight s 5) else s

/-- Default `__collection__` for a class name without an explicit one. -/
def defaultCollectionName (s : String) : String :=
  to_snake_case (stripModelSuffix s)

/-- An annotated field type as the metaclass inspects it: a plain type
(with the flag recording whether `BSONSerializedField` is among its direct
bases — the custom byte-level serialization marker supertype of the
missing odmantic/types.py), a model class produced by this engine (with
its derived schema), a semantic identifier type subject to the
`_SUBSTITUTION_TYPES` table, the internal `_objectId` type, or a
non-field callable/descriptor object (`UNTOUCHED_TYPES`: functions,
properties, class/static methods; the `field_type != PyObject` escape in
the skip test is vacuous here since `PyObject` is a class and matches no
`UNTOUCHED_TYPES` instance check). -/
inductive FieldType where
  | plain (tyName : String) (bsonBase : Bool)
  | modelType (target : ModelSchema)
  | objectIdSem
  | objectIdInternal
  | untouched

/-- Modelled from the spec: the `_SUBSTITUTION_TYPES` table of the missing
odmantic/types.py — a fixed mapping taking the semantic identifier type to
the library's storage-compatible internal `_objectId` type. -/
def substituteType : FieldType → Option FieldType
  | .objectIdSem => some .objectIdInternal
  | _ => none

/-- Whether `BSONSerializedField in field_type.__bases__`. -/
def FieldType.hasBsonBase : FieldType → Bool
  | .plain _ b => b
  | _ => false

/-- Whether `isinstance(field_type, UNTOUCHED_TYPES)`. -/
def FieldType.isUntouchedType : FieldType → Bool
  | .untouched => true
  | _ => false

/-- The identifier-generation collaborator: `_objectId` used as a
`default_factory` (modelled from the spec as an opaque factory tag; the
claims only inspect that a factory is attached, i.e. non-null). -/
inductive Factory where
  | objectIdFactory

/-- The pydantic-level field configuration wrapped by odmantic field
declarations: a plain default and/or a zero-argument default factory (the
parts of a pydantic `FieldInfo` the mapping core's behavior depends on). -/
structure PDFieldSpec where
  default : Option Value
  defaultFactory : Option Factory

/-- A value bound to a field name in the class body, as the metaclass
dispatches on it: an odmantic `ODMFieldInfo` (primary flag, optional
document key name, wrapped pydantic field spec), an odmantic
`ODMReferenceInfo` (optional key name), the pydantic `FieldInfo` CLASS
object itself (what the literal `value is PDFieldInfo` identity test
matches), a pydantic `FieldInfo` INSTANCE (what `pydantic.Field(...)`
returns, and what loop-one rewrites bound values to), an ordinary python
value, or an untouched callable/descriptor (methods, properties ...). -/
inductive BoundValue where
  | odmFieldInfo (primary_field : Bool) (key_name : Option String) (spec : PDFieldSpec)
  | odmReferenceInfo (key_name : Option String)
  | pdFieldInfoClass
  | pdFieldInfoInstance (spec : PDFieldSpec)
  | plainValue (v : Value)
  | untouchedValue

/-- Whether `isinstance(value, UNTOUCHED_TYPES)` for a bound value. -/
def BoundValue.isUntouchedValue : BoundValue → Bool
  | .untouchedValue => true
  | _ => false

/-- Definition-time errors of the metaclass (`TypeError`s in the source):
multiple primary keys on a model, a reference declared at a non-model
type, the literal "please use odmantic.Field instead of pydantic.Field"
error, an unhandled field definition, and a duplicate document key name. -/
inductive DeriveError where
  | multiplePrimaryKeys (modelName : String)
  | referenceOnNonModel (fieldName modelName : String)
  | useOdmanticFieldError
  | unhandledFieldDefinition (modelName fieldName : String)
  | duplicateKeyName (key modelName : String)

/-- A class body as the metaclass receives it: the class name, the
resolved annotations in declaration order, the namespace bindings in
declaration order, and the explicit `__collection__` entry if the class
body sets one (a dunder key of the namespace, held apart since no loop
treats it as a field). -/
structure ClassBody where
  name : String
  anns : List (String × FieldType)
  ns : List (String × BoundValue)
  existingCollection : Option String

/-- The mutable state threaded through the metaclass loops:
`primary_field`, `odm_fields`, `references`, `bson_serialized_fields`
(insertion-ordered; the source uses a `set`, and annotation names are
unique in a python class body) and the namespace being rewritten. -/
structure DeriveState where
  primaryField : Option String
  odm_fields : List (String × ODMBaseField)
  references : List String
  bson : List String
  ns : List (String × BoundValue)

/-- The custom-serialization bookkeeping of the first metaclass loop:
when `BSONSerializedField` is among the annotated type's direct bases, the
field name is added to `bson_serialized_fields`. -/
def bsonUpd (fname : String) (ftype : FieldType) (st : DeriveState) : DeriveState :=
  if ftype.hasBsonBase then { st with bson := st.bson ++ [fname] } else st

/-- The primary-key bookkeeping of an `ODMFieldInfo` declaration: a field
with `primary_field=True` claims the primary key, failing when another
field already holds it. -/
def primaryUpd (modelName : String) (fname : String) (primary : Bool)
    (pf : Option String) : Except DeriveError (Option String) :=
  if primary then
    match pf with
    | some _ => .error (.multiplePrimaryKeys modelName)
    | none => .ok (some fname)
  else .ok pf

/-- One iteration of the first metaclass loop on the annotated field
`(fname, ftype)`: skip invalid names and untouched types, record
custom-serialized fields, then dispatch on the value bound in the
namespace: an `ODMFieldInfo` yields a plain descriptor (rejecting a
second primary key) and rewrites the namespace binding to its wrapped
pydantic field spec; an `ODMReferenceInfo` on a model type yields a
reference descriptor; an absent binding yields a plain non-primary
descriptor keyed by the field name; the pydantic `FieldInfo` class object
raises the "please use odmantic.Field" error; anything else raises an
unhandled field definition error. -/
def procAnnStep (modelName : String) (fname : String) (ftype : FieldType)
    (st : DeriveState) : Except DeriveError DeriveState :=
  if !is_valid_odm_field fname || ftype.isUntouchedType then .ok st
  else
    match alookup st.ns fname with
    | some (.odmFieldInfo primary keyOpt spec) =>
      match primaryUpd modelName fname primary st.primaryField with
      | .error e => .error e
      | .ok pf =>
        .ok { bsonUpd fname ftype st with
              primaryField := pf,
              odm_fields := dictInsert st.odm_fields fname
                (.field primary (keyOpt.getD fname)),
              ns := dictInsert st.ns fname (.pdFieldInfoInstance spec) }
    | some (.odmReferenceInfo keyOpt) =>
      match ftype with
      | .modelType target =>
        .ok { bsonUpd fname ftype st with
              odm_fields := dictInsert st.odm_fields fname
                (.reference (keyOpt.getD fname) target),
              references := st.references ++ [fname] }
      | _ => .error (.referenceOnNonModel fname modelName)
    | none =>
      .ok { bsonUpd fname ftype st with
            odm_fields := dictInsert st.odm_fields fname (.field false fname) }
    | some .pdFieldInfoClass => .error .useOdmanticFieldError
    | some _ => .error (.unhandledFieldDefinition modelName fname)

/-- The first metaclass loop, over the (substituted) annotations in
declaration order. -/
def procAnns (modelName : String) :
    List (String × FieldType) → DeriveState → Except DeriveError DeriveState
  | [], st => .ok st
  | (fname, ftype) :: rest, st =>
    match procAnnStep modelName fname ftype st with
    | .error e => .error e
    | .ok st2 => procAnns modelName rest st2

/-- The second metaclass loop, over the namespace bindings: every name
that is not an annotated field, not dunder-like and not an untouched
callable/descriptor is registered as a plain non-primary descriptor keyed
by its own name. -/
def procNs (anns : List (String × FieldType)) :
    List (String × BoundValue) → List (String × ODMBaseField) →
    List (String × ODMBaseField)
  | [], odm => odm
  | (fname, bv) :: rest, odm =>
    if (alookup anns fname).isSome || !is_valid_odm_field fname
        || bv.isUntouchedValue then
      procNs anns rest odm
    else
      procNs anns rest (dictInsert odm fname (.field false fname))

/-- The class attributes derived by the metaclass: `__odm_fields__`,
`__references__`, `__primary_key__`, `__bson_serialized_fields__`,
`__collection__`, plus the final (rewritten) namespace bindings and
annotations. -/
structure DerivedModel where
  odm_fields : List (String × ODMBaseField)
  references : List String
  primary_key : String
  bson_serialized_fields : List String
  collection : String
  ns : List (String × BoundValue)
  anns : List (String × FieldType)

/-- The annotations after the `_SUBSTITUTION_TYPES` rewriting pass. -/
def substAnns (anns : List (String × FieldType)) : List (String × FieldType) :=
  anns.map (fun kv => (kv.1, (substituteType kv.2).getD kv.2))

/-- The tail of the metaclass after primary-key synthesis: the
duplicate-key check over the final descriptor table, the `__collection__`
derivation (the explicit class-body entry is kept, otherwise the
name-based default) and the packing of the derived class attributes. -/
def checkAndPack (cb : ClassBody) (pk : String)
    (odm : List (String × ODMBaseField)) (ns2 : List (String × BoundValue))
    (anns2 : List (String × FieldType)) (st : DeriveState) :
    Except DeriveError DerivedModel :=
  match find_duplicate_key (odm.map Prod.snd) with
  | some k => .error (.duplicateKeyName k cb.name)
  | none =>
    .ok ⟨odm, st.references, pk, st.bson,
      (match cb.existingCollection with
       | some c => c
       | none => defaultCollectionName cb.name), ns2, anns2⟩

/-- The primary-key synthesis after the loops: when no field was declared
primary, the field `id` (document key `"_id"`, annotated `_objectId`,
bound to a pydantic field with the `_objectId` default factory) is
written into the descriptor table, the namespace and the annotations,
overwriting any previous bindings at that name; then the duplicate-key
check and the packing of the derived attributes (`checkAndPack`). -/
def finishDerive (cb : ClassBody) (anns2 : List (String × FieldType))
    (st : DeriveState) : Except DeriveError DerivedModel :=
  let odm := procNs anns2 st.ns st.odm_fields
  match st.primaryField with
  | some p => checkAndPack cb p odm st.ns anns2 st
  | none =>
    checkAndPack cb "id"
      (dictInsert odm "id" (.field true "_id"))
      (dictInsert st.ns "id" (.pdFieldInfoInstance ⟨none, some .objectIdFactory⟩))
      (dictInsert anns2 "id" .objectIdInternal) st

/-- `ModelMetaclass.__new__` on a user class body: substitute annotated
types, run the two field loops in order, then `finishDerive`. -/
def derive (cb : ClassBody) : Except DeriveError DerivedModel :=
  match procAnns cb.name (substAnns cb.anns) ⟨none, [], [], [], cb.ns⟩ with
  | .error e => .error e
  | .ok st => finishDerive cb (substAnns cb.anns) st

/-- Number of primary field descriptors in an `__odm_fields__` table. -/
def countPrimary (l : List (String × ODMBaseField)) : Nat :=
  (l.filter (fun kv => kv.2.isPrimary)).length

/-- Whether a descriptor is a reference descriptor. -/
def ODMBaseField.isReference : ODMBaseField → Bool
  | .field _ _ => false
  | .reference _ _ => true

/-- The test the first metaclass loop makes before treating an annotated
field as a primary-key declaration: a valid, non-untouched field whose
bound value is an `ODMFieldInfo` with `primary_field=True`. -/
def primaryCond (ns0 : List (String × BoundValue)) (kv : String × FieldType) : Bool :=
  is_valid_odm_field kv.1 && !kv.2.isUntouchedType &&
    (match alookup ns0 kv.1 with
     | some (.odmFieldInfo true _ _) => true
     | _ => false)

theorem alookup_nil {α : Type} (key : String) : alookup ([] : List (String × α)) key = none :=
  rfl

theorem alookup_cons {α : Type} (a : String) (b : α) (t : List (String × α)) (key : String) :
    alookup ((a, b) :: t) key = if a = key then some b else alookup t key :=
  rfl

theorem dictInsert_nil {α : Type} (k : String) (v : α) :
    dictInsert ([] : List (String × α)) k v = [(k, v)] :=
  rfl

theorem dictInsert_cons {α : Type} (a : String) (b : α) (t : List (String × α))
    (k : String) (v : α) :
    dictInsert ((a, b) :: t) k v =
      if a = k then (k, v) :: t else (a, b) :: dictInsert t k v :=
  rfl

theorem countPrimary_nil : countPrimary [] = 0 :=
  rfl

theorem countPrimary_cons (kv : String × ODMBaseField) (t : List (String × ODMBaseField)) :
    countPrimary (kv :: t) =
      (if kv.2.isPrimary = true then 1 else 0) + countPrimary t := by
  by_cases h : kv.2.isPrimary = true
  · simp [countPrimary, List.filter_cons, h]
    omega
  · simp [countPrimary, List.filter_cons, h]

theorem alookup_dictInsert_self {α : Type} (l : List (String × α)) (k : String) (v : α) :
    alookup (dictInsert l k v) k = some v := by
  induction l with
  | nil => simp [dictInsert_nil, alookup_cons]
  | cons kv t ih =>
    obtain ⟨a, b⟩ := kv
    rw [dictInsert_cons]
    by_cases h : a = k
    · simp [h, alookup_cons]
    · simp [h, alookup_cons, ih]

theorem alookup_dictInsert_ne {α : Type} (l : List (String × α)) (k k' : String) (v : α)
    (h : k' ≠ k) : alookup (dictInsert l k v) k' = alookup l k' := by
  have hkk : ¬ k = k' := fun h2 => h h2.symm
  induction l with
  | nil => simp [dictInsert_nil, alookup_cons, alookup_nil, hkk]
  | cons kv t ih =>
    obtain ⟨a, b⟩ := kv
    rw [dictInsert_cons]
    by_cases h1 : a = k
    · subst h1
      simp [alookup_cons, hkk, if_pos]
    · rw [if_neg h1, alookup_cons, alookup_cons]
      by_cases h2 : a = k'
      · simp [h2]
      · simp [h2, ih]

theorem mem_dictInsert {α : Type} (l : List (String × α)) (k : String) (v : α) :
    ∀ kv ∈ dictInsert l k v, kv ∈ l ∨ kv = (k, v) := by
  induction l with
  | nil => simp [dictInsert_nil]
  | cons hd t ih =>
    obtain ⟨a, b⟩ := hd
    intro kv hkv
    rw [dictInsert_cons] at hkv
    by_cases h : a = k
    · rw [if_pos h, List.mem_cons] at hkv
      rcases hkv with h1 | h1
      · right; exact h1
      · left; exact List.mem_cons_of_mem _ h1
    · rw [if_neg h, List.mem_cons] at hkv
      rcases hkv with h1 | h1
      · left; simp [h1]
      · rcases ih kv h1 with h2 | h2
        · left; exact List.mem_cons_of_mem _ h2
        · right; exact h2

theorem countPrimary_dictInsert_nonprimary (l : List (String × ODMBaseField))
    (k : String) (f : ODMBaseField) (hf : f.isPrimary = false)
    (hk : ∀ kv ∈ l, kv.1 = k → kv.2.isPrimary = false) :
    countPrimary (dictInsert l k f) = countPrimary l := by
  induction l with
  | nil => simp [dictInsert_nil, countPrimary_cons, countPrimary_nil, hf]
  | cons hd t ih =>
    obtain ⟨a, b⟩ := hd
    rw [dictInsert_cons]
    by_cases h : a = k
    · have hb : b.isPrimary = false := hk (a, b) (List.mem_cons_self _ _) h
      rw [if_pos h, countPrimary_cons, countPrimary_cons]
      simp [hf, hb]
    · have ih2 := ih (fun kv hkv hkk => hk kv (List.mem_cons_of_mem _ hkv) hkk)
      rw [if_neg h, countPrimary_cons, countPrimary_cons, ih2]

theorem countPrimary_dictInsert_primary (l : List (String × ODMBaseField))
    (k : String) (f : ODMBaseField) (hf : f.isPrimary = true)
    (hall : ∀ kv ∈ l, kv.2.isPrimary = false) :
    countPrimary (dictInsert l k f) = 1 := by
  induction l with
  | nil => simp [dictInsert_nil, countPrimary_cons, countPrimary_nil, hf]
  | cons hd t ih =>
    obtain ⟨a, b⟩ := hd
    have hb : b.isPrimary = false := hall (a, b) (List.mem_cons_self _ _)
    have ht : ∀ kv ∈ t, kv.2.isPrimary = false :=
      fun kv hkv => hall kv (List.mem_cons_of_mem _ hkv)
    rw [dictInsert_cons]
    by_cases h : a = k
    · have h0 : countPrimary t = 0 := by
        simp only [countPrimary, List.length_eq_zero, List.filter_eq_nil_iff]
        intro kv hkv
        simp [ht kv hkv]
      rw [if_pos h, countPrimary_cons]
      simp [hf, h0]
    · rw [if_neg h, countPrimary_cons, ih ht]
      simp [hb]

theorem countPrimary_eq_zero (l : List (String × ODMBaseField))
    (hall : ∀ kv ∈ l, kv.2.isPrimary = false) : countPrimary l = 0 := by
  simp only [countPrimary, List.length_eq_zero, List.filter_eq_nil_iff]
  intro kv hkv
  simp [hall kv hkv]

theorem countPrimary_eq_zero_all (l : List (String × ODMBaseField))
    (h : countPrimary l = 0) : ∀ kv ∈ l, kv.2.isPrimary = false := by
  simp only [countPrimary, List.length_eq_zero, List.filter_eq_nil_iff] at h
  intro kv hkv
  have := h kv hkv
  simpa using this

theorem bsonUpd_primaryField (fname : String) (ftype : FieldType) (st : DeriveState) :
    (bsonUpd fname ftype st).primaryField = st.primaryField := by
  unfold bsonUpd
  split <;> rfl

theorem bsonUpd_odm_fields (fname : String) (ftype : FieldType) (st : DeriveState) :
    (bsonUpd fname ftype st).odm_fields = st.odm_fields := by
  unfold bsonUpd
  split <;> rfl

theorem bsonUpd_ns (fname : String) (ftype : FieldType) (st : DeriveState) :
    (bsonUpd fname ftype st).ns = st.ns := by
  unfold bsonUpd
  split <;> rfl

theorem bsonUpd_references (fname : String) (ftype : FieldType) (st : DeriveState) :
    (bsonUpd fname ftype st).references = st.references := by
  unfold bsonUpd
  split <;> rfl

/-- The primary-key invariant carried through the metaclass loops, on the
`primary_field` / `odm_fields` / namespace components of the state: while
no field claimed the primary key every descriptor is non-primary; once
field `p` claimed it, exactly one descriptor is primary, every primary
descriptor sits at name `p`, and the namespace binds `p` to the rewritten
pydantic field spec. -/
def primInvT (pf : Option String) (odm : List (String × ODMBaseField))
    (ns : List (String × BoundValue)) : Prop :=
  match pf with
  | none => ∀ kv ∈ odm, kv.2.isPrimary = false
  | some p =>
      countPrimary odm = 1 ∧
      (∀ kv ∈ odm, kv.2.isPrimary = true → kv.1 = p) ∧
      (∃ spec, alookup ns p = some (BoundValue.pdFieldInfoInstance spec))

theorem primInvT_insert_nonprimary (pf : Option String)
    (odm : List (String × ODMBaseField)) (ns : List (String × BoundValue))
    (k : String) (f : ODMBaseField) (hf : f.isPrimary = false)
    (hne : ∀ p, pf = some p → k ≠ p)
    (hinv : primInvT pf odm ns) : primInvT pf (dictInsert odm k f) ns := by
  cases pf with
  | none =>
    intro kv hkv
    rcases mem_dictInsert odm k f kv hkv with h1 | h1
    · exact hinv kv h1
    · rw [h1]; exact hf
  | some p =>
    obtain ⟨hcount, hkey, hspec⟩ := hinv
    have hkp : k ≠ p := hne p rfl
    refine ⟨?_, ?_, hspec⟩
    · rw [countPrimary_dictInsert_nonprimary odm k f hf]
      · exact hcount
      · intro kv hkv hkk
        by_cases hp : kv.2.isPrimary = true
        · exact absurd (hkk ▸ hkey kv hkv hp) hkp
        · simpa using hp
    · intro kv hkv hp
      rcases mem_dictInsert odm k f kv hkv with h1 | h1
      · exact hkey kv h1 hp
      · rw [h1] at hp
        exact absurd hp (by simp [hf])

theorem primInvT_insert_ns (pf : Option String)
    (odm : List (String × ODMBaseField)) (ns : List (String × BoundValue))
    (k : String) (bv : BoundValue)
    (hne : ∀ p, pf = some p → k ≠ p)
    (hinv : primInvT pf odm ns) : primInvT pf odm (dictInsert ns k bv) := by
  cases pf with
  | none => exact hinv
  | some p =>
    obtain ⟨hcount, hkey, spec, hspec⟩ := hinv
    refine ⟨hcount, hkey, spec, ?_⟩
    rw [alookup_dictInsert_ne ns k p bv (hne p rfl).symm]
    exact hspec

theorem primInvT_set_primary (odm : List (String × ODMBaseField))
    (ns : List (String × BoundValue)) (k key : String) (spec : PDFieldSpec)
    (hall : ∀ kv ∈ odm, kv.2.isPrimary = false) :
    primInvT (some k) (dictInsert odm k (.field true key))
      (dictInsert ns k (.pdFieldInfoInstance spec)) := by
  refine ⟨countPrimary_dictInsert_primary odm k _ rfl hall, ?_, spec,
    alookup_dictInsert_self ns k _⟩
  intro kv hkv hp
  rcases mem_dictInsert odm k _ kv hkv with h1 | h1
  · exact absurd hp (by simp [hall kv h1])
  · rw [h1]

theorem procAnnStep_primInv (n fname : String) (ftype : FieldType) (st st2 : DeriveState)
    (h : procAnnStep n fname ftype st = .ok st2)
    (hinv : primInvT st.primaryField st.odm_fields st.ns) :
    primInvT st2.primaryField st2.odm_fields st2.ns := by
  unfold procAnnStep at h
  by_cases hskip : (!is_valid_odm_field fname || ftype.isUntouchedType) = true
  · rw [if_pos hskip] at h
    injection h with h2
    rw [← h2]
    exact hinv
  · rw [if_neg hskip] at h
    split at h
    · rename_i primary keyOpt spec hlk
      split at h
      · exact Except.noConfusion h
      · rename_i pf hpu
        injection h with h2
        rw [← h2]
        simp only [bsonUpd_primaryField, bsonUpd_ns]
        cases primary with
        | true =>
          rw [primaryUpd.eq_def, if_pos rfl] at hpu
          split at hpu
          · exact Except.noConfusion hpu
          · rename_i hpf
            injection hpu with hpu2
            rw [hpf] at hinv
            rw [← hpu2]
            exact primInvT_set_primary st.odm_fields st.ns fname _ spec hinv
        | false =>
          rw [primaryUpd.eq_def, if_neg (by simp)] at hpu
          injection hpu with hpu2
          have hne : ∀ p, st.primaryField = some p → fname ≠ p := by
            intro p hp heq
            rw [hp] at hinv
            obtain ⟨-, -, spec2, hspec⟩ := hinv
            rw [← heq, hlk] at hspec
            injection hspec with hspec2
            exact BoundValue.noConfusion hspec2
          rw [← hpu2]
          exact primInvT_insert_ns _ _ _ fname _ hne
            (primInvT_insert_nonprimary _ _ _ fname _ rfl hne hinv)
    · rename_i keyOpt hlk
      split at h
      · rename_i target hft
        injection h with h2
        have hne : ∀ p, st.primaryField = some p → fname ≠ p := by
          intro p hp heq
          rw [hp] at hinv
          obtain ⟨-, -, spec2, hspec⟩ := hinv
          rw [← heq, hlk] at hspec
          injection hspec with hspec2
          exact BoundValue.noConfusion hspec2
        rw [← h2]
        simp only [bsonUpd_primaryField, bsonUpd_ns]
        exact primInvT_insert_nonprimary _ _ _ fname _ rfl hne hinv
      · exact Except.noConfusion h
    · rename_i hlk
      injection h with h2
      have hne : ∀ p, st.primaryField = some p → fname ≠ p := by
        intro p hp heq
        rw [hp] at hinv
        obtain ⟨-, -, spec, hspec⟩ := hinv
        rw [← heq, hlk] at hspec
        exact Option.noConfusion hspec
      rw [← h2]
      simp only [bsonUpd_primaryField, bsonUpd_ns]
      exact primInvT_insert_nonprimary st.primaryField st.odm_fields st.ns fname _
        rfl hne hinv
    · exact Except.noConfusion h
    · exact Except.noConfusion h

theorem procAnns_primInv (n : String) :
    ∀ (l : List (String × FieldType)) (st st' : DeriveState),
      procAnns n l st = .ok st' →
      primInvT st.primaryField st.odm_fields st.ns →
      primInvT st'.primaryField st'.odm_fields st'.ns := by
  intro l
  induction l with
  | nil =>
    intro st st' h hinv
    simp only [procAnns] at h
    injection h with h2
    rw [← h2]
    exact hinv
  | cons hd rest ih =>
    obtain ⟨fname, ftype⟩ := hd
    intro st st' h hinv
    simp only [procAnns] at h
    split at h
    · exact Except.noConfusion h
    · rename_i st2 hstep
      exact ih st2 st' h (procAnnStep_primInv n fname ftype st st2 hstep hinv)

theorem alookup_isSome_of_mem {α : Type} (l : List (String × α)) (p : String) (v : α)
    (h : (p, v) ∈ l) : (alookup l p).isSome = true := by
  induction l with
  | nil => cases h
  | cons hd t ih =>
    obtain ⟨a, b⟩ := hd
    rw [alookup_cons]
    by_cases ha : a = p
    · simp [ha]
    · rcases List.mem_cons.mp h with h1 | h1
      · exact absurd (congrArg Prod.fst h1).symm ha
      · simp [ha, ih h1]

theorem procAnnStep_primaryField (n fname : String) (ftype : FieldType)
    (st st2 : DeriveState) (h : procAnnStep n fname ftype st = .ok st2) :
    st2.primaryField = st.primaryField ∨ st2.primaryField = some fname := by
  unfold procAnnStep at h
  by_cases hskip : (!is_valid_odm_field fname || ftype.isUntouchedType) = true
  · rw [if_pos hskip] at h
    injection h with h2
    left; rw [← h2]
  · rw [if_neg hskip] at h
    split at h
    · rename_i primary keyOpt spec hlk
      split at h
      · exact Except.noConfusion h
      · rename_i pf hpu
        injection h with h2
        rw [← h2]
        simp only [bsonUpd_primaryField]
        cases primary with
        | true =>
          rw [primaryUpd.eq_def, if_pos rfl] at hpu
          split at hpu
          · exact Except.noConfusion hpu
          · injection hpu with hpu2
            right; rw [← hpu2]
        | false =>
          rw [primaryUpd.eq_def, if_neg (by simp)] at hpu
          injection hpu with hpu2
          left; rw [← hpu2]
    · rename_i keyOpt hlk
      split at h
      · injection h with h2
        left; rw [← h2]; simp only [bsonUpd_primaryField]
      · exact Except.noConfusion h
    · injection h with h2
      left; rw [← h2]; simp only [bsonUpd_primaryField]
    · exact Except.noConfusion h
    · exact Except.noConfusion h

theorem procAnns_primaryField_mem (n : String) :
    ∀ (l : List (String × FieldType)) (st st' : DeriveState),
      procAnns n l st = .ok st' →
      st'.primaryField = st.primaryField ∨
        (∃ p, st'.primaryField = some p ∧ p ∈ l.map Prod.fst) := by
  intro l
  induction l with
  | nil =>
    intro st st' h
    simp only [procAnns] at h
    injection h with h2
    left; rw [← h2]
  | cons hd rest ih =>
    obtain ⟨fname, ftype⟩ := hd
    intro st st' h
    simp only [procAnns] at h
    split at h
    · exact Except.noConfusion h
    · rename_i st2 hstep
      rcases ih st2 st' h with h1 | ⟨p, hp1, hp2⟩
      · rcases procAnnStep_primaryField n fname ftype st st2 hstep with h2 | h2
        · left; rw [h1, h2]
        · right
          exact ⟨fname, h1 ▸ h2, by simp⟩
      · right
        exact ⟨p, hp1, by simp [hp2]⟩

theorem mem_fst_alookup_isSome {α : Type} (l : List (String × α)) (p : String)
    (h : p ∈ l.map Prod.fst) : (alookup l p).isSome = true := by
  rcases List.mem_map.mp h with ⟨kv, hkv, hfst⟩
  obtain ⟨a, b⟩ := kv
  simp only at hfst
  subst hfst
  exact alookup_isSome_of_mem l a b hkv

theorem procNs_nonprimary (anns2 : List (String × FieldType)) :
    ∀ (items : List (String × BoundValue)) (odm : List (String × ODMBaseField)),
      (∀ kv ∈ odm, kv.2.isPrimary = false) →
      ∀ kv ∈ procNs anns2 items odm, kv.2.isPrimary = false := by
  intro items
  induction items with
  | nil =>
    intro odm hall
    simpa only [procNs] using hall
  | cons hd rest ih =>
    obtain ⟨fname, bv⟩ := hd
    intro odm hall
    simp only [procNs]
    split
    · exact ih odm hall
    · refine ih _ ?_
      intro kv hkv
      rcases mem_dictInsert odm fname _ kv hkv with h1 | h1
      · exact hall kv h1
      · rw [h1]; rfl

theorem procNs_primary_some (anns2 : List (String × FieldType)) (p : String)
    (hp : (alookup anns2 p).isSome = true) :
    ∀ (items : List (String × BoundValue)) (odm : List (String × ODMBaseField)),
      countPrimary odm = 1 →
      (∀ kv ∈ odm, kv.2.isPrimary = true → kv.1 = p) →
      countPrimary (procNs anns2 items odm) = 1 ∧
        (∀ kv ∈ procNs anns2 items odm, kv.2.isPrimary = true → kv.1 = p) := by
  intro items
  induction items with
  | nil =>
    intro odm hc hk
    simpa only [procNs] using ⟨hc, hk⟩
  | cons hd rest ih =>
    obtain ⟨fname, bv⟩ := hd
    intro odm hc hk
    simp only [procNs]
    split
    · exact ih odm hc hk
    · rename_i hcond
      have hnot : (alookup anns2 fname).isSome = false := by
        by_contra hx
        simp only [Bool.not_eq_false] at hx
        exact hcond (by simp [hx])
      have hne : fname ≠ p := by
        intro heq
        rw [heq, hp] at hnot
        exact Bool.noConfusion hnot
      have hkk : ∀ kv ∈ odm, kv.1 = fname → kv.2.isPrimary = false := by
        intro kv hkv hkf
        by_cases hpk : kv.2.isPrimary = true
        · exact absurd (hkf.symm.trans (hk kv hkv hpk)) hne
        · simpa using hpk
      refine ih _ ?_ ?_
      · rw [countPrimary_dictInsert_nonprimary odm fname (ODMBaseField.field false fname)
          rfl hkk]
        exact hc
      · intro kv hkv hpk
        rcases mem_dictInsert odm fname _ kv hkv with h1 | h1
        · exact hk kv h1 hpk
        · rw [h1] at hpk
          exact Bool.noConfusion hpk

theorem checkAndPack_ok (cb : ClassBody) (pk : String)
    (odm : List (String × ODMBaseField)) (ns2 : List (String × BoundValue))
    (anns2 : List (String × FieldType)) (st : DeriveState) (s : DerivedModel)
    (h : checkAndPack cb pk odm ns2 anns2 st = .ok s) :
    s.odm_fields = odm ∧ s.primary_key = pk ∧ s.ns = ns2 ∧ s.anns = anns2 ∧
      s.references = st.references ∧ s.bson_serialized_fields = st.bson ∧
      s.collection = (match cb.existingCollection with
        | some c => c
        | none => defaultCollectionName cb.name) ∧
      find_duplicate_key (odm.map Prod.snd) = none := by
  unfold checkAndPack at h
  split at h
  · exact Except.noConfusion h
  · rename_i hdup
    injection h with h2
    rw [← h2]
    exact ⟨rfl, rfl, rfl, rfl, rfl, rfl, rfl, hdup⟩

theorem derive_ok_decomp (cb : ClassBody) (s : DerivedModel)
    (h : derive cb = .ok s) :
    ∃ st, procAnns cb.name (substAnns cb.anns) ⟨none, [], [], [], cb.ns⟩ = .ok st ∧
      finishDerive cb (substAnns cb.anns) st = .ok s := by
  unfold derive at h
  split at h
  · exact Except.noConfusion h
  · rename_i st hst
    exact ⟨st, hst, h⟩

theorem derive_countPrimary (cb : ClassBody) (s : DerivedModel)
    (h : derive cb = .ok s) : countPrimary s.odm_fields = 1 := by
  obtain ⟨st, hloop, hfin⟩ := derive_ok_decomp cb s h
  have hinv0 : primInvT (none : Option String) ([] : List (String × ODMBaseField)) cb.ns := by
    intro kv hkv
    cases hkv
  have hinv := procAnns_primInv cb.name _ _ _ hloop hinv0
  unfold finishDerive at hfin
  split at hfin
  · rename_i p hpf
    obtain ⟨ho, -, -, -, -, -, -, -⟩ := checkAndPack_ok _ _ _ _ _ _ _ hfin
    rw [hpf] at hinv
    obtain ⟨hc, hkey, -⟩ := hinv
    have hmem : (alookup (substAnns cb.anns) p).isSome = true := by
      rcases procAnns_primaryField_mem cb.name _ _ _ hloop with h1 | ⟨q, hq1, hq2⟩
      · rw [hpf] at h1
        exact Option.noConfusion h1
      · rw [hpf] at hq1
        injection hq1 with hq1b
        rw [hq1b]
        exact mem_fst_alookup_isSome _ _ hq2
    rw [ho]
    exact (procNs_primary_some (substAnns cb.anns) p hmem st.ns st.odm_fields hc hkey).1
  · rename_i hpf
    obtain ⟨ho, -, -, -, -, -, -, -⟩ := checkAndPack_ok _ _ _ _ _ _ _ hfin
    rw [hpf] at hinv
    have hall := procNs_nonprimary (substAnns cb.anns) st.ns st.odm_fields hinv
    rw [ho]
    exact countPrimary_dictInsert_primary _ _ _ rfl hall

theorem primaryCond_insert_ne (ns0 : List (String × BoundValue)) (k : String)
    (bv : BoundValue) (kv : String × FieldType) (h : kv.1 ≠ k) :
    primaryCond (dictInsert ns0 k bv) kv = primaryCond ns0 kv := by
  unfold primaryCond
  rw [alookup_dictInsert_ne ns0 k kv.1 bv h]

theorem primaryCond_false_of_lookup (ns0 : List (String × BoundValue))
    (kv : String × FieldType) (bv : BoundValue)
    (hlk : alookup ns0 kv.1 = some bv)
    (hbv : ∀ keyOpt spec, bv ≠ .odmFieldInfo true keyOpt spec) :
    primaryCond ns0 kv = false := by
  unfold primaryCond
  rw [hlk]
  cases bv with
  | odmFieldInfo primary keyOpt spec =>
    cases primary with
    | true => exact absurd rfl (hbv keyOpt spec)
    | false => simp
  | odmReferenceInfo keyOpt => simp
  | pdFieldInfoClass => simp
  | pdFieldInfoInstance spec => simp
  | plainValue v => simp
  | untouchedValue => simp

theorem primaryCond_false_of_none (ns0 : List (String × BoundValue))
    (kv : String × FieldType) (hlk : alookup ns0 kv.1 = none) :
    primaryCond ns0 kv = false := by
  unfold primaryCond
  rw [hlk]
  simp

theorem primaryCond_true_elim (ns0 : List (String × BoundValue))
    (kv : String × FieldType) (h : primaryCond ns0 kv = true) :
    is_valid_odm_field kv.1 = true ∧ kv.2.isUntouchedType = false ∧
      ∃ keyOpt spec, alookup ns0 kv.1 = some (.odmFieldInfo true keyOpt spec) := by
  unfold primaryCond at h
  simp only [Bool.and_eq_true, Bool.not_eq_true'] at h
  obtain ⟨⟨h1, h2⟩, h3⟩ := h
  refine ⟨h1, h2, ?_⟩
  split at h3
  · rename_i keyOpt spec heq
    exact ⟨keyOpt, spec, heq⟩
  · exact Bool.noConfusion h3

theorem procAnnStep_cond_false (n fname : String) (ftype : FieldType)
    (st st2 : DeriveState) (h : procAnnStep n fname ftype st = .ok st2)
    (hc : primaryCond st.ns (fname, ftype) = false) :
    st2.primaryField = st.primaryField ∧
      ∀ kv : String × FieldType, primaryCond st2.ns kv = primaryCond st.ns kv := by
  unfold procAnnStep at h
  by_cases hskip : (!is_valid_odm_field fname || ftype.isUntouchedType) = true
  · rw [if_pos hskip] at h
    injection h with h2
    rw [← h2]
    exact ⟨rfl, fun kv => rfl⟩
  · rw [if_neg hskip] at h
    have hvalid : is_valid_odm_field fname = true ∧ ftype.isUntouchedType = false := by
      simp only [Bool.or_eq_true, Bool.not_eq_true'] at hskip
      push_neg at hskip
      exact ⟨by simpa using hskip.1, by simpa using hskip.2⟩
    split at h
    · rename_i primary keyOpt spec hlk
      cases primary with
      | true =>
        exfalso
        have : primaryCond st.ns (fname, ftype) = true := by
          unfold primaryCond
          simp only [hvalid.1, hvalid.2, hlk]
          simp
        rw [this] at hc
        exact Bool.noConfusion hc
      | false =>
        rw [primaryUpd.eq_def, if_neg (by simp)] at h
        injection h with h2
        rw [← h2]
        simp only [bsonUpd_primaryField, bsonUpd_ns]
        refine ⟨trivial, fun kv => ?_⟩
        by_cases hk : kv.1 = fname
        · rw [primaryCond_false_of_lookup _ kv (.pdFieldInfoInstance spec)
            (by rw [hk]; exact alookup_dictInsert_self st.ns fname _) (by intro a b hx; exact BoundValue.noConfusion hx)]
          rw [primaryCond_false_of_lookup st.ns kv (.odmFieldInfo false keyOpt spec)
            (by rw [hk]; exact hlk) (by intro a b hx; injection hx with hb; exact Bool.noConfusion hb)]
        · exact primaryCond_insert_ne st.ns fname _ kv hk
    · rename_i keyOpt hlk
      split at h
      · injection h with h2
        rw [← h2]
        simp only [bsonUpd_primaryField, bsonUpd_ns]
        exact ⟨trivial, fun kv => trivial⟩
      · exact Except.noConfusion h
    · rename_i hlk
      injection h with h2
      rw [← h2]
      simp only [bsonUpd_primaryField, bsonUpd_ns]
      exact ⟨trivial, fun kv => trivial⟩
    · exact Except.noConfusion h
    · exact Except.noConfusion h

theorem procAnnStep_some_cond (n fname : String) (ftype : FieldType)
    (st st2 : DeriveState) (p : String)
    (h : procAnnStep n fname ftype st = .ok st2) (hp : st.primaryField = some p) :
    primaryCond st.ns (fname, ftype) = false := by
  by_cases hc : primaryCond st.ns (fname, ftype) = true
  · exfalso
    obtain ⟨h1, h2, keyOpt, spec, hlk⟩ := primaryCond_true_elim st.ns (fname, ftype) hc
    unfold procAnnStep at h
    rw [if_neg (by simp [h1, h2])] at h
    simp only at hlk
    rw [hlk] at h
    simp only at h
    rw [primaryUpd.eq_def, if_pos rfl, hp] at h
    exact Except.noConfusion h
  · simpa using hc

theorem procAnnStep_cond_true (n fname : String) (ftype : FieldType)
    (st st2 : DeriveState) (h : procAnnStep n fname ftype st = .ok st2)
    (hc : primaryCond st.ns (fname, ftype) = true) :
    st.primaryField = none ∧ st2.primaryField = some fname ∧
      ∀ kv : String × FieldType, kv.1 ≠ fname →
        primaryCond st2.ns kv = primaryCond st.ns kv := by
  obtain ⟨h1, h2, keyOpt, spec, hlk⟩ := primaryCond_true_elim st.ns (fname, ftype) hc
  simp only at hlk
  unfold procAnnStep at h
  rw [if_neg (by simp [h1, h2]), hlk] at h
  simp only at h
  rw [primaryUpd.eq_def, if_pos rfl] at h
  cases hpf : st.primaryField with
  | some q =>
    rw [hpf] at h
    exact Except.noConfusion h
  | none =>
    rw [hpf] at h
    simp only at h
    injection h with h3
    rw [← h3]
    simp only [bsonUpd_primaryField, bsonUpd_ns]
    exact ⟨trivial, trivial, fun kv hk => primaryCond_insert_ne st.ns fname _ kv hk⟩

theorem procAnns_conds_false_of_some (n : String) :
    ∀ (l : List (String × FieldType)) (st st' : DeriveState) (p : String),
      procAnns n l st = .ok st' → st.primaryField = some p →
      ∀ kv ∈ l, primaryCond st.ns kv = false := by
  intro l
  induction l with
  | nil =>
    intro st st' p h hp kv hkv
    cases hkv
  | cons hd rest ih =>
    obtain ⟨fname, ftype⟩ := hd
    intro st st' p h hp kv hkv
    simp only [procAnns] at h
    split at h
    · exact Except.noConfusion h
    · rename_i st2 hstep
      rcases List.mem_cons.mp hkv with h1 | h1
      · rw [h1]
        exact procAnnStep_some_cond n fname ftype st st2 p hstep hp
      · have hcondf := procAnnStep_some_cond n fname ftype st st2 p hstep hp
        obtain ⟨hpf2, hcp⟩ := procAnnStep_cond_false n fname ftype st st2 hstep hcondf
        rw [← hcp kv]
        exact ih st2 st' p h (hpf2.trans hp) kv h1

theorem procAnns_primary_stable (n : String) :
    ∀ (l : List (String × FieldType)) (st st' : DeriveState),
      procAnns n l st = .ok st' →
      (∀ kv ∈ l, primaryCond st.ns kv = false) →
      st'.primaryField = st.primaryField := by
  intro l
  induction l with
  | nil =>
    intro st st' h hall
    simp only [procAnns] at h
    injection h with h2
    rw [← h2]
  | cons hd rest ih =>
    obtain ⟨fname, ftype⟩ := hd
    intro st st' h hall
    simp only [procAnns] at h
    split at h
    · exact Except.noConfusion h
    · rename_i st2 hstep
      obtain ⟨hpf2, hcp⟩ :=
        procAnnStep_cond_false n fname ftype st st2 hstep
          (hall (fname, ftype) (List.mem_cons_self _ _))
      have hall2 : ∀ kv ∈ rest, primaryCond st2.ns kv = false := by
        intro kv hkv
        rw [hcp kv]
        exact hall kv (List.mem_cons_of_mem _ hkv)
      rw [ih st2 st' h hall2, hpf2]

theorem procAnns_two_primary_false (n : String) :
    ∀ (l : List (String × FieldType)) (st st' : DeriveState),
      procAnns n l st = .ok st' → (l.map Prod.fst).Nodup →
      ∀ k1 τ1 k2 τ2, (k1, τ1) ∈ l → (k2, τ2) ∈ l → k1 ≠ k2 →
        primaryCond st.ns (k1, τ1) = true → primaryCond st.ns (k2, τ2) = true →
        False := by
  intro l
  induction l with
  | nil =>
    intro st st' h hnd k1 τ1 k2 τ2 h1 h2
    cases h1
  | cons hd rest ih =>
    obtain ⟨hk, hτ⟩ := hd
    intro st st' h hnd k1 τ1 k2 τ2 h1 h2 hne hc1 hc2
    simp only [List.map_cons, List.nodup_cons] at hnd
    obtain ⟨hnotin, hndrest⟩ := hnd
    have hmem_ne : ∀ k τ, (k, τ) ∈ rest → k ≠ hk := by
      intro k τ hkt heq
      exact hnotin (heq ▸ List.mem_map_of_mem Prod.fst hkt)
    simp only [procAnns] at h
    split at h
    · exact Except.noConfusion h
    · rename_i st2 hstep
      by_cases hchd : primaryCond st.ns (hk, hτ) = true
      · obtain ⟨hpf0, hpf2, hcp⟩ := procAnnStep_cond_true n hk hτ st st2 hstep hchd
        have hfalse := procAnns_conds_false_of_some n rest st2 st' hk h hpf2
        rcases List.mem_cons.mp h1 with he1 | he1
        · have hk1 : k1 = hk := congrArg Prod.fst he1
          rcases List.mem_cons.mp h2 with he2 | he2
          · exact hne ((congrArg Prod.fst he1).trans (congrArg Prod.fst he2).symm)
          · have hk2 : k2 ≠ hk := hmem_ne k2 τ2 he2
            have := hfalse (k2, τ2) he2
            rw [hcp (k2, τ2) hk2, hc2] at this
            exact Bool.noConfusion this
        · have hk1 : k1 ≠ hk := hmem_ne k1 τ1 he1
          rcases List.mem_cons.mp h2 with he2 | he2
          · have := hfalse (k1, τ1) he1
            rw [hcp (k1, τ1) hk1, hc1] at this
            exact Bool.noConfusion this
          · have hk2 : k2 ≠ hk := hmem_ne k2 τ2 he2
            refine ih st2 st' h hndrest k1 τ1 k2 τ2 he1 he2 hne ?_ ?_
            · rw [hcp (k1, τ1) hk1]; exact hc1
            · rw [hcp (k2, τ2) hk2]; exact hc2
      · have hchdf : primaryCond st.ns (hk, hτ) = false := by simpa using hchd
        obtain ⟨hpf2, hcp⟩ := procAnnStep_cond_false n hk hτ st st2 hstep hchdf
        rcases List.mem_cons.mp h1 with he1 | he1
        · rw [he1] at hc1
          rw [hc1] at hchdf
          exact Bool.noConfusion hchdf
        · rcases List.mem_cons.mp h2 with he2 | he2
          · rw [he2] at hc2
            rw [hc2] at hchdf
            exact Bool.noConfusion hchdf
          · refine ih st2 st' h hndrest k1 τ1 k2 τ2 he1 he2 hne ?_ ?_
            · rw [hcp (k1, τ1)]; exact hc1
            · rw [hcp (k2, τ2)]; exact hc2

theorem bsonUpd_bson (fname : String) (ftype : FieldType) (st : DeriveState) :
    (bsonUpd fname ftype st).bson =
      if ftype.hasBsonBase = true then st.bson ++ [fname] else st.bson := by
  by_cases hb : ftype.hasBsonBase = true
  · simp [bsonUpd, hb]
  · simp [bsonUpd, hb]

theorem procAnnStep_bson (n fname : String) (ftype : FieldType) (st st2 : DeriveState)
    (h : procAnnStep n fname ftype st = .ok st2) :
    st2.bson = st.bson ∨ st2.bson = st.bson ++ [fname] := by
  unfold procAnnStep at h
  by_cases hskip : (!is_valid_odm_field fname || ftype.isUntouchedType) = true
  · rw [if_pos hskip] at h
    injection h with h2
    left
    rw [← h2]
  · rw [if_neg hskip] at h
    split at h
    · split at h
      · exact Except.noConfusion h
      · injection h with h2
        rw [← h2]
        simp only [bsonUpd_bson]
        by_cases hbb : ftype.hasBsonBase = true
        · rw [if_pos hbb]; right; rfl
        · rw [if_neg hbb]; left; rfl
    · split at h
      · injection h with h2
        rw [← h2]
        simp [bsonUpd_bson, FieldType.hasBsonBase]
      · exact Except.noConfusion h
    · injection h with h2
      rw [← h2]
      simp only [bsonUpd_bson]
      by_cases hbb : ftype.hasBsonBase = true
      · rw [if_pos hbb]; right; rfl
      · rw [if_neg hbb]; left; rfl
    · exact Except.noConfusion h
    · exact Except.noConfusion h

theorem procAnnStep_bson_of (n fname : String) (ftype : FieldType) (st st2 : DeriveState)
    (h : procAnnStep n fname ftype st = .ok st2)
    (hv : is_valid_odm_field fname = true) (hu : ftype.isUntouchedType = false)
    (hb : ftype.hasBsonBase = true) :
    st2.bson = st.bson ++ [fname] := by
  unfold procAnnStep at h
  rw [if_neg (by simp [hv, hu])] at h
  split at h
  · split at h
    · exact Except.noConfusion h
    · injection h with h2
      rw [← h2]
      simp only [bsonUpd_bson]
      rw [if_pos hb]
  · split at h
    · simp [FieldType.hasBsonBase] at hb
    · exact Except.noConfusion h
  · injection h with h2
    rw [← h2]
    simp only [bsonUpd_bson]
    rw [if_pos hb]
  · exact Except.noConfusion h
  · exact Except.noConfusion h

theorem procAnns_bson_mono (n : String) :
    ∀ (l : List (String × FieldType)) (st st' : DeriveState),
      procAnns n l st = .ok st' → ∀ x ∈ st.bson, x ∈ st'.bson := by
  intro l
  induction l with
  | nil =>
    intro st st' h x hx
    simp only [procAnns] at h
    injection h with h2
    rw [← h2]
    exact hx
  | cons hd rest ih =>
    obtain ⟨fname, ftype⟩ := hd
    intro st st' h x hx
    simp only [procAnns] at h
    split at h
    · exact Except.noConfusion h
    · rename_i st2 hstep
      refine ih st2 st' h x ?_
      rcases procAnnStep_bson n fname ftype st st2 hstep with h1 | h1
      · rw [h1]; exact hx
      · rw [h1]; exact List.mem_append_left _ hx

theorem procAnns_bson_mem (n : String) :
    ∀ (l : List (String × FieldType)) (st st' : DeriveState),
      procAnns n l st = .ok st' →
      ∀ kv ∈ l, is_valid_odm_field kv.1 = true → kv.2.isUntouchedType = false →
        kv.2.hasBsonBase = true → kv.1 ∈ st'.bson := by
  intro l
  induction l with
  | nil =>
    intro st st' h kv hkv
    cases hkv
  | cons hd rest ih =>
    obtain ⟨fname, ftype⟩ := hd
    intro st st' h kv hkv hv hu hb
    simp only [procAnns] at h
    split at h
    · exact Except.noConfusion h
    · rename_i st2 hstep
      rcases List.mem_cons.mp hkv with h1 | h1
      · have heq1 : kv.1 = fname := congrArg Prod.fst h1
        have heq2 : kv.2 = ftype := congrArg Prod.snd h1
        rw [heq1] at hv
        rw [heq2] at hu hb
        rw [heq1]
        have hb2 := procAnnStep_bson_of n fname ftype st st2 hstep hv hu hb
        refine procAnns_bson_mono n rest st2 st' h fname ?_
        rw [hb2]
        exact List.mem_append_right _ (List.mem_singleton_self _)
      · exact ih st2 st' h kv h1 hv hu hb

theorem derive_bson_mem (cb : ClassBody) (s : DerivedModel)
    (h : derive cb = .ok s) :
    ∀ kv ∈ substAnns cb.anns, is_valid_odm_field kv.1 = true →
      kv.2.isUntouchedType = false → kv.2.hasBsonBase = true →
      kv.1 ∈ s.bson_serialized_fields := by
  obtain ⟨st, hloop, hfin⟩ := derive_ok_decomp cb s h
  intro kv hkv hv hu hb
  have hmem := procAnns_bson_mem cb.name _ _ _ hloop kv hkv hv hu hb
  unfold finishDerive at hfin
  split at hfin
  · obtain ⟨-, -, -, -, -, hbs, -, -⟩ := checkAndPack_ok _ _ _ _ _ _ _ hfin
    rw [hbs]
    exact hmem
  · obtain ⟨-, -, -, -, -, hbs, -, -⟩ := checkAndPack_ok _ _ _ _ _ _ _ hfin
    rw [hbs]
    exact hmem

theorem derive_collection_eq (cb : ClassBody) (s : DerivedModel)
    (h : derive cb = .ok s) :
    s.collection = (match cb.existingCollection with
      | some c => c
      | none => defaultCollectionName cb.name) := by
  obtain ⟨st, hloop, hfin⟩ := derive_ok_decomp cb s h
  unfold finishDerive at hfin
  split at hfin
  · exact (checkAndPack_ok _ _ _ _ _ _ _ hfin).2.2.2.2.2.2.1
  · exact (checkAndPack_ok _ _ _ _ _ _ _ hfin).2.2.2.2.2.2.1

theorem derive_synth (cb : ClassBody) (s : DerivedModel)
    (h : derive cb = .ok s)
    (hnone : ∀ kv ∈ substAnns cb.anns, primaryCond cb.ns kv = false) :
    s.primary_key = "id" ∧
      alookup s.odm_fields "id" = some (.field true "_id") ∧
      alookup s.ns "id" = some (.pdFieldInfoInstance ⟨none, some .objectIdFactory⟩) ∧
      alookup s.anns "id" = some .objectIdInternal := by
  obtain ⟨st, hloop, hfin⟩ := derive_ok_decomp cb s h
  have hstable := procAnns_primary_stable cb.name _ _ _ hloop hnone
  unfold finishDerive at hfin
  split at hfin
  · rename_i p hpf
    rw [hpf] at hstable
    exact Option.noConfusion hstable
  · obtain ⟨ho, hpk, hns, hanns, -, -, -, -⟩ := checkAndPack_ok _ _ _ _ _ _ _ hfin
    refine ⟨hpk, ?_, ?_, ?_⟩
    · rw [ho]
      exact alookup_dictInsert_self _ _ _
    · rw [hns]
      exact alookup_dictInsert_self _ _ _
    · rw [hanns]
      exact alookup_dictInsert_self _ _ _

theorem find_duplicate_key_go_none_iff :
    ∀ (fs : List ODMBaseField) (seen : List String),
      find_duplicate_key_go seen fs = none ↔
        ((fs.map ODMBaseField.key_name).Nodup ∧ ∀ f ∈ fs, f.key_name ∉ seen) := by
  intro fs
  induction fs with
  | nil =>
    intro seen
    simp [find_duplicate_key_go]
  | cons f t ih =>
    intro seen
    simp only [find_duplicate_key_go]
    by_cases hc : seen.contains f.key_name = true
    · rw [if_pos hc]
      have hcm : f.key_name ∈ seen := by simpa using hc
      constructor
      · intro hx
        exact Option.noConfusion hx
      · intro ⟨h1, h2⟩
        exact absurd hcm (h2 f (List.mem_cons_self _ _))
    · rw [if_neg hc]
      have hcm : f.key_name ∉ seen := by simpa using hc
      rw [ih (f.key_name :: seen)]
      constructor
      · intro ⟨h1, h2⟩
        constructor
        · rw [List.map_cons, List.nodup_cons]
          refine ⟨?_, h1⟩
          intro hmem
          rcases List.mem_map.mp hmem with ⟨g, hg, hgk⟩
          exact (h2 g hg) (by rw [hgk]; exact List.mem_cons_self _ _)
        · intro g hg
          rcases List.mem_cons.mp hg with hg1 | hg1
          · rw [hg1]; exact hcm
          · intro hmem
            exact (h2 g hg1) (List.mem_cons_of_mem _ hmem)
      · intro ⟨h1, h2⟩
        rw [List.map_cons, List.nodup_cons] at h1
        obtain ⟨h1a, h1b⟩ := h1
        refine ⟨h1b, ?_⟩
        intro g hg hmem
        rcases List.mem_cons.mp hmem with hm | hm
        · exact h1a (hm ▸ List.mem_map_of_mem ODMBaseField.key_name hg)
        · exact (h2 g (List.mem_cons_of_mem _ hg)) hm

theorem find_duplicate_key_none_iff (fs : List ODMBaseField) :
    find_duplicate_key fs = none ↔ (fs.map ODMBaseField.key_name).Nodup := by
  rw [find_duplicate_key, find_duplicate_key_go_none_iff fs []]
  simp

theorem derive_keys_nodup (cb : ClassBody) (s : DerivedModel)
    (h : derive cb = .ok s) :
    (s.odm_fields.map (fun kv => kv.2.key_name)).Nodup := by
  obtain ⟨st, hloop, hfin⟩ := derive_ok_decomp cb s h
  unfold finishDerive at hfin
  split at hfin
  · obtain ⟨ho, -, -, -, -, -, -, hdup⟩ := checkAndPack_ok _ _ _ _ _ _ _ hfin
    have := (find_duplicate_key_none_iff _).mp hdup
    rw [List.map_map] at this
    rw [ho]
    exact this
  · obtain ⟨ho, -, -, -, -, -, -, hdup⟩ := checkAndPack_ok _ _ _ _ _ _ _ hfin
    have := (find_duplicate_key_none_iff _).mp hdup
    rw [List.map_map] at this
    rw [ho]
    exact this

/-- The raw-document entry `Model.doc` computes for the field named `k`
with descriptor `f` (a specification helper): for a plain field the
materialized value, custom-serialized through `to_bson` when flagged; for
a reference the entry of the nested materialized mapping at the literal
key `"id"`; `none` when the computation raises. -/
def docFieldEnc (tb : String → Value → Value) (bson : List String)
    (inst : List (String × Value)) (k : String) : ODMBaseField → Option Value
  | .field _ _ =>
    match alookup inst k with
    | some v => some (if bson.contains k then tb k v else v)
    | none => none
  | .reference _ _ =>
    match alookup inst k with
    | some (.vdoc sub) => alookup sub "id"
    | _ => none

theorem doc_fields_lookup (tb : String → Value → Value) (bson : List String)
    (inst : List (String × Value)) :
    ∀ (fl : List (String × ODMBaseField)) (d : List (String × Value)),
      doc_fields tb bson fl inst = .ok d →
      (fl.map (fun kv => kv.2.key_name)).Nodup →
      ∀ k f, (k, f) ∈ fl → alookup d f.key_name = docFieldEnc tb bson inst k f := by
  intro fl
  induction fl with
  | nil =>
    intro d h hn k f hkf
    cases hkf
  | cons hd rest ih =>
    obtain ⟨k0, f0⟩ := hd
    intro d h hn k f hkf
    rw [List.map_cons, List.nodup_cons] at hn
    obtain ⟨hn1, hn2⟩ := hn
    simp only [doc_fields] at h
    split at h
    · rename_i key target
      split at h
      · exact Except.noConfusion h
      · rename_i v hlk
        split at h
        · rename_i sub
          split at h
          · exact Except.noConfusion h
          · rename_i idv hid
            split at h
            · exact Except.noConfusion h
            · rename_i tail htail
              injection h with h2
              rcases List.mem_cons.mp hkf with h1 | h1
              · have hks : k = k0 := congrArg Prod.fst h1
                have hfs : f = .reference key target := congrArg Prod.snd h1
                rw [← h2, hfs]
                simp [ODMBaseField.key_name, alookup_cons, docFieldEnc, hks, hlk, hid]
              · have hne : key ≠ f.key_name := by
                  intro heq
                  apply hn1
                  simp only [ODMBaseField.key_name]
                  rw [heq]
                  exact List.mem_map_of_mem (fun kv => kv.2.key_name) h1
                rw [← h2, alookup_cons, if_neg hne]
                exact ih tail htail hn2 k f h1
        · exact Except.noConfusion h
    · rename_i p key
      split at h
      · exact Except.noConfusion h
      · rename_i v hlk
        split at h
        · exact Except.noConfusion h
        · rename_i tail htail
          injection h with h2
          rcases List.mem_cons.mp hkf with h1 | h1
          · have hks : k = k0 := congrArg Prod.fst h1
            have hfs : f = .field p key := congrArg Prod.snd h1
            rw [← h2, hfs]
            simp [ODMBaseField.key_name, alookup_cons, docFieldEnc, hks, hlk]
          · have hne : key ≠ f.key_name := by
              intro heq
              apply hn1
              simp only [ODMBaseField.key_name]
              rw [heq]
              exact List.mem_map_of_mem (fun kv => kv.2.key_name) h1
            rw [← h2, alookup_cons, if_neg hne]
            exact ih tail htail hn2 k f h1

theorem alookup_map_nodup {β : Type} (keyfn : String × ODMBaseField → String)
    (valfn : String × ODMBaseField → β) :
    ∀ (fl : List (String × ODMBaseField)), (fl.map keyfn).Nodup →
      ∀ kv ∈ fl,
        alookup (fl.map (fun y => (keyfn y, valfn y))) (keyfn kv) = some (valfn kv) := by
  intro fl
  induction fl with
  | nil =>
    intro hn kv hkv
    cases hkv
  | cons hd rest ih =>
    intro hn kv hkv
    rw [List.map_cons, List.nodup_cons] at hn
    rw [List.map_cons, alookup_cons]
    rcases List.mem_cons.mp hkv with h1 | h1
    · rw [h1]
      simp
    · have hne : keyfn hd ≠ keyfn kv := by
        intro heq
        exact hn.1 (heq ▸ List.mem_map_of_mem keyfn h1)
      rw [if_neg hne]
      exact ih hn.2 kv h1

theorem doc_fields_map (tb : String → Value → Value) (bson : List String)
    (inst : List (String × Value)) (g : String → Value) :
    ∀ (fl : List (String × ODMBaseField)),
      (∀ kv ∈ fl, kv.2.isReference = false) →
      (∀ kv ∈ fl, alookup inst kv.1 = some (g kv.1)) →
      doc_fields tb bson fl inst =
        .ok (fl.map (fun kv =>
          (kv.2.key_name, if bson.contains kv.1 then tb kv.1 (g kv.1) else g kv.1))) := by
  intro fl
  induction fl with
  | nil =>
    intro hr hc
    simp [doc_fields]
  | cons hd rest ih =>
    obtain ⟨k0, f0⟩ := hd
    intro hr hc
    have hf0 := hr (k0, f0) (List.mem_cons_self _ _)
    cases f0 with
    | reference key target => exact absurd hf0 (by simp [ODMBaseField.isReference])
    | field p key =>
      have hl0 := hc (k0, .field p key) (List.mem_cons_self _ _)
      simp only at hl0
      have ihr := ih (fun kv hkv => hr kv (List.mem_cons_of_mem _ hkv))
        (fun kv hkv => hc kv (List.mem_cons_of_mem _ hkv))
      simp only [doc_fields, hl0, ihr, List.map_cons]
      rfl

theorem parse_fields_map (fb : String → Value → Value) (g : String → Value) :
    ∀ (fl : List (String × ODMBaseField)) (raw : List (String × Value)),
      (∀ kv ∈ fl, kv.2.isReference = false) →
      (∀ kv ∈ fl, alookup raw kv.2.key_name = some (g kv.1)) →
      parse_fields fb fl raw = .ok (fl.map (fun kv => (kv.1, g kv.1))) := by
  intro fl
  induction fl with
  | nil =>
    intro raw hr hc
    simp [parse_fields]
  | cons hd rest ih =>
    obtain ⟨k0, f0⟩ := hd
    intro raw hr hc
    have hf0 := hr (k0, f0) (List.mem_cons_self _ _)
    cases f0 with
    | reference key target => exact absurd hf0 (by simp [ODMBaseField.isReference])
    | field p key =>
      have hl0 := hc (k0, .field p key) (List.mem_cons_self _ _)
      simp only [ODMBaseField.key_name] at hl0
      have ihr := ih raw (fun kv hkv => hr kv (List.mem_cons_of_mem _ hkv))
        (fun kv hkv => hc kv (List.mem_cons_of_mem _ hkv))
      simp only [parse_fields, hl0, ihr, List.map_cons]

theorem parse_obj_map (fb : String → Value → Value) (bson : List String)
    (defaults : List (String × Value)) (g : String → Value) :
    ∀ (fl : List (String × ODMBaseField)) (d : List (String × Value)),
      (∀ kv ∈ fl, alookup d kv.1 = some (g kv.1)) →
      parse_obj_fields fb bson defaults fl d =
        .ok (fl.map (fun kv =>
          (kv.1, if bson.contains kv.1 then fb kv.1 (g kv.1) else g kv.1))) := by
  intro fl
  induction fl with
  | nil =>
    intro d hc
    simp [parse_obj_fields]
  | cons hd rest ih =>
    obtain ⟨k0, f0⟩ := hd
    intro d hc
    have hl0 := hc (k0, f0) (List.mem_cons_self _ _)
    simp only at hl0
    have ihr := ih d (fun kv hkv => hc kv (List.mem_cons_of_mem _ hkv))
    simp only [parse_obj_fields, hl0, ihr, List.map_cons]

theorem roundtrip_noref (fb tb : String → Value → Value)
    (fl : List (String × ODMBaseField)) (bson : List String)
    (defaults : List (String × Value)) (inst : List (String × Value))
    (hnoref : ∀ kv ∈ fl, kv.2.isReference = false)
    (hkeys : (fl.map (fun kv => kv.2.key_name)).Nodup)
    (hnames : (fl.map Prod.fst).Nodup)
    (hcov : ∀ kv ∈ fl, (alookup inst kv.1).isSome = true)
    (hinv : ∀ k v, alookup inst k = some v → bson.contains k = true →
      fb k (tb k v) = v) :
    ∃ d y, doc tb (.mk fl bson defaults) inst = .ok d ∧
      parse_doc fb (.mk fl bson defaults) d = .ok y ∧
      ∀ kv ∈ fl, alookup y kv.1 = alookup inst kv.1 := by
  have hlk : ∀ kv ∈ fl, alookup inst kv.1 =
      some ((alookup inst kv.1).getD (.vid 0)) := by
    intro kv hkv
    have hs := hcov kv hkv
    cases hx : alookup inst kv.1 with
    | none => rw [hx] at hs; exact Bool.noConfusion hs
    | some v => simp [hx]
  have hdoc := doc_fields_map tb bson inst
    (fun k => (alookup inst k).getD (.vid 0)) fl hnoref hlk
  have hd1 : ∀ kv ∈ fl,
      alookup (fl.map (fun y => (y.2.key_name,
        if bson.contains y.1 then tb y.1 ((alookup inst y.1).getD (.vid 0))
        else (alookup inst y.1).getD (.vid 0)))) kv.2.key_name =
      some (if bson.contains kv.1 then tb kv.1 ((alookup inst kv.1).getD (.vid 0))
        else (alookup inst kv.1).getD (.vid 0)) := by
    intro kv hkv
    exact alookup_map_nodup (fun y => y.2.key_name)
      (fun y => if bson.contains y.1 then tb y.1 ((alookup inst y.1).getD (.vid 0))
        else (alookup inst y.1).getD (.vid 0)) fl hkeys kv hkv
  have hpf := parse_fields_map fb
    (fun k => if bson.contains k then tb k ((alookup inst k).getD (.vid 0))
      else (alookup inst k).getD (.vid 0)) fl _ hnoref hd1
  have hd2 : ∀ kv ∈ fl,
      alookup (fl.map (fun y => (y.1,
        if bson.contains y.1 then tb y.1 ((alookup inst y.1).getD (.vid 0))
        else (alookup inst y.1).getD (.vid 0)))) kv.1 =
      some (if bson.contains kv.1 then tb kv.1 ((alookup inst kv.1).getD (.vid 0))
        else (alookup inst kv.1).getD (.vid 0)) := by
    intro kv hkv
    exact alookup_map_nodup Prod.fst
      (fun y => if bson.contains y.1 then tb y.1 ((alookup inst y.1).getD (.vid 0))
        else (alookup inst y.1).getD (.vid 0)) fl hnames kv hkv
  have hpo := parse_obj_map fb bson defaults
    (fun k => if bson.contains k then tb k ((alookup inst k).getD (.vid 0))
      else (alookup inst k).getD (.vid 0)) fl _ hd2
  refine ⟨fl.map (fun y => (y.2.key_name,
      if bson.contains y.1 then tb y.1 ((alookup inst y.1).getD (.vid 0))
      else (alookup inst y.1).getD (.vid 0))),
    fl.map (fun y => (y.1,
      if bson.contains y.1 then
        fb y.1 (if bson.contains y.1 then tb y.1 ((alookup inst y.1).getD (.vid 0))
          else (alookup inst y.1).getD (.vid 0))
      else (if bson.contains y.1 then tb y.1 ((alookup inst y.1).getD (.vid 0))
          else (alookup inst y.1).getD (.vid 0)))), ?_, ?_, ?_⟩
  · rw [doc]
    exact hdoc
  · simp only [parse_doc, hpf]
    exact hpo
  · intro kv hkv
    have hy := alookup_map_nodup Prod.fst
      (fun y => if bson.contains y.1 then
          fb y.1 (if bson.contains y.1 then tb y.1 ((alookup inst y.1).getD (.vid 0))
            else (alookup inst y.1).getD (.vid 0))
        else (if bson.contains y.1 then tb y.1 ((alookup inst y.1).getD (.vid 0))
            else (alookup inst y.1).getD (.vid 0))) fl hnames kv hkv
    rw [hy, hlk kv hkv]
    by_cases hb : bson.contains kv.1 = true
    · simp only [hb, if_pos]
      rw [hinv kv.1 ((alookup inst kv.1).getD (.vid 0)) (hlk kv hkv) hb]
    · simp only [hb]
      simp

theorem parse_fields_err (fb : String → Value → Value) :
    ∀ (fl : List (String × ODMBaseField)) (raw : List (String × Value))
      (k : String) (f : ODMBaseField),
      (k, f) ∈ fl → alookup raw f.key_name = none →
      ∃ e, parse_fields fb fl raw = .error e := by
  intro fl
  induction fl with
  | nil =>
    intro raw k f hkf hnone
    cases hkf
  | cons hd rest ih =>
    obtain ⟨k0, f0⟩ := hd
    intro raw k f hkf hnone
    rcases List.mem_cons.mp hkf with h1 | h1
    · have hfs : f0 = f := (congrArg Prod.snd h1).symm
      cases f0 with
      | field p key =>
        have hl : alookup raw key = none := by
          rw [← hfs] at hnone
          simpa [ODMBaseField.key_name] using hnone
        exact ⟨.keyError key, by simp [parse_fields, hl]⟩
      | reference key target =>
        have hl : alookup raw key = none := by
          rw [← hfs] at hnone
          simpa [ODMBaseField.key_name] using hnone
        exact ⟨.keyError key, by simp [parse_fields, hl]⟩
    · cases f0 with
      | field p key =>
        cases hl : alookup raw key with
        | none => exact ⟨.keyError key, by simp [parse_fields, hl]⟩
        | some v =>
          obtain ⟨e, he⟩ := ih raw k f h1 hnone
          exact ⟨e, by simp [parse_fields, hl, he]⟩
      | reference key target =>
        cases hl : alookup raw key with
        | none => exact ⟨.keyError key, by simp [parse_fields, hl]⟩
        | some v =>
          cases v with
          | vdoc sub =>
            cases hpd : parse_doc fb target sub with
            | error e2 => exact ⟨e2, by simp [parse_fields, hl, hpd]⟩
            | ok nested =>
              obtain ⟨e, he⟩ := ih raw k f h1 hnone
              exact ⟨e, by simp [parse_fields, hl, hpd, he]⟩
          | vid n => exact ⟨.notADocument key, by simp [parse_fields, hl]⟩
          | vstr s => exact ⟨.notADocument key, by simp [parse_fields, hl]⟩
          | vint n => exact ⟨.notADocument key, by simp [parse_fields, hl]⟩
          | vbool b => exact ⟨.notADocument key, by simp [parse_fields, hl]⟩

theorem parse_doc_missing_key (fb : String → Value → Value) (m : ModelSchema)
    (raw : List (String × Value)) (k : String) (f : ODMBaseField)
    (hmem : (k, f) ∈ m.odm_fields) (hnone : alookup raw f.key_name = none) :
    ∃ e, parse_doc fb m raw = .error e := by
  cases m with
  | mk fl bson defaults =>
    obtain ⟨e, he⟩ := parse_fields_err fb fl raw k f
      (by simpa [ModelSchema.odm_fields] using hmem) hnone
    exact ⟨e, by simp [parse_doc, he]⟩

theorem parse_fields_congr (fb : String → Value → Value) :
    ∀ (fl : List (String × ODMBaseField)) (r1 r2 : List (String × Value)),
      (∀ kv ∈ fl, alookup r1 kv.2.key_name = alookup r2 kv.2.key_name) →
      parse_fields fb fl r1 = parse_fields fb fl r2 := by
  intro fl
  induction fl with
  | nil =>
    intro r1 r2 hag
    rfl
  | cons hd rest ih =>
    obtain ⟨k0, f0⟩ := hd
    intro r1 r2 hag
    have hh := hag (k0, f0) (List.mem_cons_self _ _)
    have hr := ih r1 r2 (fun kv hkv => hag kv (List.mem_cons_of_mem _ hkv))
    cases f0 with
    | field p key =>
      simp only [ODMBaseField.key_name] at hh
      simp only [parse_fields, hh, hr]
    | reference key target =>
      simp only [ODMBaseField.key_name] at hh
      simp only [parse_fields, hh, hr]

theorem parse_doc_congr (fb : String → Value → Value) (m : ModelSchema)
    (r1 r2 : List (String × Value))
    (hag : ∀ kv ∈ m.odm_fields, alookup r1 kv.2.key_name = alookup r2 kv.2.key_name) :
    parse_doc fb m r1 = parse_doc fb m r2 := by
  cases m with
  | mk fl bson defaults =>
    simp only [ModelSchema.odm_fields] at hag
    simp only [parse_doc, parse_fields_congr fb fl r1 r2 hag]

theorem parse_doc_extra_key (fb : String → Value → Value) (m : ModelSchema)
    (k : String) (v : Value) (raw : List (String × Value))
    (hk : k ∉ m.odm_fields.map (fun kv => kv.2.key_name)) :
    parse_doc fb m ((k, v) :: raw) = parse_doc fb m raw := by
  refine parse_doc_congr fb m _ _ ?_
  intro kv hkv
  rw [alookup_cons]
  rw [if_neg ?_]
  intro heq
  apply hk
  rw [heq]
  exact List.mem_map_of_mem (fun kv => kv.2.key_name) hkv

/-- Example class body (the spec's running example): `name: str` and
`email: str = Field(key_name="email_address")` on a class `UserModel`
with no explicit primary key and no explicit collection. -/
def cbEx : ClassBody :=
  ⟨"UserModel",
   [("name", .plain "str" false), ("email", .plain "str" false)],
   [("email", .odmFieldInfo false (some "email_address") ⟨none, none⟩)],
   none⟩

/-- The class attributes the metaclass derives for `cbEx`. -/
def cbExDerived : DerivedModel :=
  ⟨[("name", .field false "name"), ("email", .field false "email_address"),
    ("id", .field true "_id")],
   [], "id", [], "user",
   [("email", .pdFieldInfoInstance ⟨none, none⟩),
    ("id", .pdFieldInfoInstance ⟨none, some .objectIdFactory⟩)],
   [("name", .plain "str" false), ("email", .plain "str" false),
    ("id", .objectIdInternal)]⟩

/-- Example class body declaring two primary keys. -/
def cbTwoPrimary : ClassBody :=
  ⟨"M",
   [("a", .plain "int" false), ("b", .plain "int" false)],
   [("a", .odmFieldInfo true none ⟨none, none⟩),
    ("b", .odmFieldInfo true none ⟨none, none⟩)],
   none⟩

/-- Example class body declaring an ordinary annotated field named `id`
and no primary key. -/
def cbWithId : ClassBody :=
  ⟨"ThingModel",
   [("id", .plain "int" false), ("x", .plain "str" false)],
   [], none⟩

/-- The class attributes the metaclass derives for `cbWithId`: the
synthesized primary key silently overwrote the ordinary `id` field. -/
def cbWithIdDerived : DerivedModel :=
  ⟨[("id", .field true "_id"), ("x", .field false "x")],
   [], "id", [], "thing",
   [("id", .pdFieldInfoInstance ⟨none, some .objectIdFactory⟩)],
   [("id", .objectIdInternal), ("x", .plain "str" false)]⟩

/-- Example class body binding a pydantic `FieldInfo` INSTANCE (what
`pydantic.Field(...)` returns) to an annotated field. -/
def cbPdInstance : ClassBody :=
  ⟨"M", [("x", .plain "int" false)],
   [("x", .pdFieldInfoInstance ⟨some (.vint 1), none⟩)], none⟩

/-- Example class body binding the pydantic `FieldInfo` CLASS object
itself to an annotated field (the only shape the source's identity test
`value is PDFieldInfo` matches). -/
def cbPdClass : ClassBody :=
  ⟨"M", [("x", .plain "int" false)], [("x", .pdFieldInfoClass)], none⟩

/-- Example class body with an explicit `__collection__`. -/
def cbColl : ClassBody :=
  ⟨"UserProfile", [("name", .plain "str" false)], [], some "people"⟩

/-- The class attributes the metaclass derives for `cbColl`. -/
def cbCollDerived : DerivedModel :=
  ⟨[("name", .field false "name"), ("id", .field true "_id")],
   [], "id", [], "people",
   [("id", .pdFieldInfoInstance ⟨none, some .objectIdFactory⟩)],
   [("name", .plain "str" false), ("id", .objectIdInternal)]⟩

/-- C3: for every schema-class that completes definition, exactly one
field descriptor has `primary_field = true`; declaring two fields with
`primary_field=True` makes class definition fail; and when no field is
declared primary the primary key is synthesized under the reserved name
`id`, mapped to the identity key `"_id"`, with a non-null default-value
factory bound in the namespace. -/
theorem claim_C3_exactly_one_primary :
    (∀ (cb : ClassBody) (s : DerivedModel), derive cb = .ok s →
      countPrimary s.odm_fields = 1) ∧
    (∀ (cb : ClassBody) (k1 : String) (τ1 : FieldType) (k2 : String) (τ2 : FieldType),
      ((substAnns cb.anns).map Prod.fst).Nodup →
      (k1, τ1) ∈ substAnns cb.anns → (k2, τ2) ∈ substAnns cb.anns → k1 ≠ k2 →
      primaryCond cb.ns (k1, τ1) = true → primaryCond cb.ns (k2, τ2) = true →
      ∀ s, derive cb ≠ .ok s) ∧
    (∀ (cb : ClassBody) (s : DerivedModel), derive cb = .ok s →
      (∀ kv ∈ substAnns cb.anns, primaryCond cb.ns kv = false) →
      s.primary_key = "id" ∧
        alookup s.odm_fields "id" = some (.field true "_id") ∧
        alookup s.ns "id" = some (.pdFieldInfoInstance ⟨none, some .objectIdFactory⟩)) := by
  refine ⟨derive_countPrimary, ?_, ?_⟩
  · intro cb k1 τ1 k2 τ2 hnd h1 h2 hne hc1 hc2 s hok
    obtain ⟨st, hloop, -⟩ := derive_ok_decomp cb s hok
    exact procAnns_two_primary_false cb.name (substAnns cb.anns) _ _ hloop hnd
      k1 τ1 k2 τ2 h1 h2 hne hc1 hc2
  · intro cb s hok hnone
    obtain ⟨h1, h2, h3, -⟩ := derive_synth cb s hok hnone
    exact ⟨h1, h2, h3⟩

theorem claim_C3_exactly_one_primary_witness :
    derive cbEx = .ok cbExDerived ∧
    countPrimary cbExDerived.odm_fields = 1 ∧
    derive cbTwoPrimary ≠ .ok cbExDerived ∧
    cbExDerived.primary_key = "id" ∧
    alookup cbExDerived.odm_fields "id" = some (.field true "_id") ∧
    alookup cbExDerived.ns "id" =
      some (.pdFieldInfoInstance ⟨none, some .objectIdFactory⟩) := by
  have hcond : ∀ kv ∈ substAnns cbEx.anns, primaryCond cbEx.ns kv = false := by
    intro kv hkv
    fin_cases hkv <;> rfl
  have hsynth := claim_C3_exactly_one_primary.2.2 cbEx cbExDerived rfl hcond
  refine ⟨rfl, claim_C3_exactly_one_primary.1 cbEx cbExDerived rfl, ?_,
    hsynth.1, hsynth.2.1, hsynth.2.2⟩
  exact claim_C3_exactly_one_primary.2.1 cbTwoPrimary
    "a" (.plain "int" false) "b" (.plain "int" false)
    (by decide) (List.Mem.head _) (List.Mem.tail _ (List.Mem.head _))
    (by decide) rfl rfl cbExDerived

/-- C4: for every schema-class that completes definition the document key
names across all field descriptors are pairwise distinct, and the
duplicate-key scan `find_duplicate_key` reports no duplicate exactly when
the key names are pairwise distinct (a collision makes it report a
duplicate, which the metaclass turns into a definition-time error). -/
theorem claim_C4_distinct_key_names :
    (∀ (cb : ClassBody) (s : DerivedModel), derive cb = .ok s →
      (s.odm_fields.map (fun kv => kv.2.key_name)).Nodup) ∧
    (∀ fs : List ODMBaseField,
      find_duplicate_key fs = none ↔ (fs.map ODMBaseField.key_name).Nodup) :=
  ⟨derive_keys_nodup, find_duplicate_key_none_iff⟩

theorem claim_C4_distinct_key_names_witness :
    derive cbEx = .ok cbExDerived ∧
    (cbExDerived.odm_fields.map (fun kv => kv.2.key_name)).Nodup ∧
    (find_duplicate_key [.field false "k", .field true "k"] = none ↔
      (([.field false "k", .field true "k"] : List ODMBaseField).map
        ODMBaseField.key_name).Nodup) :=
  ⟨rfl, claim_C4_distinct_key_names.1 cbEx cbExDerived rfl,
   claim_C4_distinct_key_names.2 [.field false "k", .field true "k"]⟩

/-- C6 (code bug): binding a pydantic `FieldInfo` instance — the value
`pydantic.Field(...)` actually produces — to an annotated field makes
class definition fail with the generic "Unhandled field definition"
error, NOT with the "please use odmantic.Field instead of pydantic.Field"
error; the latter fires only when the bound value is the `FieldInfo`
class object itself, because the source tests `value is PDFieldInfo`
(object identity with the class) instead of `isinstance`. -/
theorem claim_C6_foreign_field_error :
    derive cbPdInstance = .error (.unhandledFieldDefinition "M" "x") ∧
    derive cbPdClass = .error .useOdmanticFieldError :=
  ⟨rfl, rfl⟩

/-- C7: a schema-class without an explicit collection name gets the class
name with a trailing `"Model"` stripped and converted to snake case, and
an explicitly set collection name is never overridden; in particular
`UserModel` yields `user` and `UserProfile` yields `user_profile`. -/
theorem claim_C7_collection_name :
    (∀ (cb : ClassBody) (s : DerivedModel), derive cb = .ok s →
      s.collection = (match cb.existingCollection with
        | some c => c
        | none => defaultCollectionName cb.name)) ∧
    defaultCollectionName "UserModel" = "user" ∧
    defaultCollectionName "UserProfile" = "user_profile" :=
  ⟨derive_collection_eq, by decide, by decide⟩

theorem claim_C7_collection_name_witness :
    derive cbEx = .ok cbExDerived ∧
    cbExDerived.collection = defaultCollectionName "UserModel" ∧
    derive cbColl = .ok cbCollDerived ∧
    cbCollDerived.collection = "people" :=
  ⟨rfl, claim_C7_collection_name.1 cbEx cbExDerived rfl,
   rfl, claim_C7_collection_name.1 cbColl cbCollDerived rfl⟩

/-- C10: a class that declares no primary field but declares an ordinary
annotated field named `id` completes definition with that field silently
overwritten by the synthesized primary key: its descriptor becomes the
primary descriptor with key `"_id"`, its namespace binding becomes the
pydantic field with the `_objectId` default factory, and its annotated
type becomes the internal `_objectId` type. -/
theorem claim_C10_id_field_overwritten (cb : ClassBody) (s : DerivedModel)
    (τ : FieldType)
    (_hid : ("id", τ) ∈ substAnns cb.anns)
    (_hτ : τ.isUntouchedType = false)
    (_hbound : alookup cb.ns "id" = none)
    (hnoprim : ∀ kv ∈ substAnns cb.anns, primaryCond cb.ns kv = false)
    (hok : derive cb = .ok s) :
    s.primary_key = "id" ∧
      alookup s.odm_fields "id" = some (.field true "_id") ∧
      alookup s.ns "id" = some (.pdFieldInfoInstance ⟨none, some .objectIdFactory⟩) ∧
      alookup s.anns "id" = some .objectIdInternal :=
  derive_synth cb s hok hnoprim

theorem claim_C10_id_field_overwritten_witness :
    derive cbWithId = .ok cbWithIdDerived ∧
    alookup cbWithId.ns "id" = none ∧
    cbWithIdDerived.primary_key = "id" ∧
    alookup cbWithIdDerived.odm_fields "id" = some (.field true "_id") ∧
    alookup cbWithIdDerived.ns "id" =
      some (.pdFieldInfoInstance ⟨none, some .objectIdFactory⟩) ∧
    alookup cbWithIdDerived.anns "id" = some .objectIdInternal := by
  have h := claim_C10_id_field_overwritten cbWithId cbWithIdDerived
    (.plain "int" false) (List.Mem.head _) rfl rfl
    (by intro kv hkv; fin_cases hkv <;> rfl) rfl
  exact ⟨rfl, rfl, h.1, h.2.1, h.2.2.1, h.2.2.2⟩

/-- A trivial per-field validator (identity coercion). -/
def fbId : String → Value → Value := fun _ v => v

/-- Example custom `to_bson` conversion: wrap the value in a
one-entry document. -/
def tbEx : String → Value → Value := fun _ v => .vdoc [("b", v)]

/-- Example validator inverting `tbEx` on its range. -/
def fbEx : String → Value → Value := fun _ w =>
  match w with
  | .vdoc [("b", v)] => v
  | w2 => w2

/-- Example schema with a renamed key and a custom-serialized field. -/
def m1 : ModelSchema :=
  .mk [("id", .field true "_id"), ("name", .field false "name"),
       ("data", .field false "payload")]
      ["data"] []

/-- Example materialized instance of `m1`. -/
def instEx : List (String × Value) :=
  [("id", .vid 1), ("name", .vstr "n"), ("data", .vstr "z")]

/-- Example referenced schema whose primary key is a custom field named
`pk`, not `id`. -/
def rSchemaPk : ModelSchema := .mk [("pk", .field true "pk")] [] []

/-- Example schema with one reference field targeting `rSchemaPk`. -/
def pSchemaPk : ModelSchema := .mk [("r", .reference "r" rSchemaPk)] [] []

/-- Materialized instance of `pSchemaPk`: the nested instance has only
its declared field `pk`. -/
def pInstPk : List (String × Value) := [("r", .vdoc [("pk", .vid 5)])]

/-- Example referenced schema whose primary key is the (synthesized
style) field named `id`. -/
def rSchemaId : ModelSchema := .mk [("id", .field true "_id")] [] []

/-- Example schema with one reference field keyed `author`. -/
def pSchemaId : ModelSchema := .mk [("r", .reference "author" rSchemaId)] [] []

/-- Materialized instance of `pSchemaId`. -/
def pInstId : List (String × Value) := [("r", .vdoc [("id", .vid 7)])]

/-- Example schema with one field whose validation layer defines a
default. -/
def m5 : ModelSchema := .mk [("x", .field false "x")] [] [("x", .vstr "dflt")]

/-- Example class body with an annotated type carrying the
`BSONSerializedField` direct base. -/
def cbBson : ClassBody := ⟨"BinModel", [("data", .plain "Bin" true)], [], none⟩

/-- The class attributes the metaclass derives for `cbBson`. -/
def cbBsonDerived : DerivedModel :=
  ⟨[("data", .field false "data"), ("id", .field true "_id")],
   [], "id", ["data"], "bin",
   [("id", .pdFieldInfoInstance ⟨none, some .objectIdFactory⟩)],
   [("data", .plain "Bin" true), ("id", .objectIdInternal)]⟩

/-- Example schema and raw documents for the declared-keys claim. -/
def mC9 : ModelSchema := .mk [("x", .field false "x")] [] []

/-- Two raw documents agreeing on the only declared key `x`. -/
def r1C9 : List (String × Value) := [("x", .vstr "v"), ("junk", .vint 0)]

/-- Second raw document, with a different undeclared key. -/
def r2C9 : List (String × Value) := [("junk2", .vbool true), ("x", .vstr "v")]

/-- C1: for every instance of a schema with no reference fields (with
pairwise-distinct field names and key names, every declared field
materialized, and the validation layer inverting each custom
serialization), `parse_doc` applied to the document produced by `doc`
succeeds and yields an instance equal to the original on every declared
field. -/
theorem claim_C1_roundtrip (fb tb : String → Value → Value) (m : ModelSchema)
    (inst : List (String × Value))
    (hnoref : ∀ kv ∈ m.odm_fields, kv.2.isReference = false)
    (hkeys : (m.odm_fields.map (fun kv => kv.2.key_name)).Nodup)
    (hnames : (m.odm_fields.map Prod.fst).Nodup)
    (hcov : ∀ kv ∈ m.odm_fields, (alookup inst kv.1).isSome = true)
    (hinv : ∀ k v, alookup inst k = some v →
      m.bson_serialized_fields.contains k = true → fb k (tb k v) = v) :
    ∃ d y, doc tb m inst = .ok d ∧ parse_doc fb m d = .ok y ∧
      ∀ kv ∈ m.odm_fields, alookup y kv.1 = alookup inst kv.1 := by
  cases m with
  | mk fl bs dfl =>
    exact roundtrip_noref fb tb fl bs dfl inst hnoref hkeys hnames hcov hinv

theorem claim_C1_roundtrip_witness :
    (m1.odm_fields.map (fun kv => kv.2.key_name)).Nodup ∧
    (∃ d y, doc tbEx m1 instEx = .ok d ∧ parse_doc fbEx m1 d = .ok y ∧
      ∀ kv ∈ m1.odm_fields, alookup y kv.1 = alookup instEx kv.1) :=
  ⟨by decide,
   claim_C1_roundtrip fbEx tbEx m1 instEx
     (by intro kv hkv; fin_cases hkv <;> rfl)
     (by decide) (by decide)
     (by intro kv hkv; fin_cases hkv <;> rfl)
     (fun k v _ _ => rfl)⟩

/-- C2 counterexample: for the reference target `rSchemaPk`, whose
designated primary key is the field named `pk`, `doc` does not map the
reference key to the primary-key value `vid 5` of the nested instance —
it raises a `KeyError` on the literal key `"id"`, which the nested
materialized mapping does not contain. -/
theorem claim_C2_counterexample :
    doc tbEx pSchemaPk pInstPk = .error (.keyError "id") ∧
    ¬ ∃ d, doc tbEx pSchemaPk pInstPk = Except.ok d ∧
      alookup d "r" = some (Value.vid 5) := by
  refine ⟨rfl, ?_⟩
  rintro ⟨d, hd, -⟩
  rw [show doc tbEx pSchemaPk pInstPk = Except.error (DocError.keyError "id")
    from rfl] at hd
  exact Except.noConfusion hd

/-- C2 (amended): for a reference field, `doc` maps the field's
`key_name` to the entry of the nested materialized instance at the
LITERAL key `"id"` — which is the primary-key value exactly when the
target schema's primary key is the field named `id`. -/
theorem claim_C2_reference_key_literal_id (tb : String → Value → Value)
    (m : ModelSchema) (inst d : List (String × Value)) (k key : String)
    (target : ModelSchema) (sub : List (String × Value)) (idv : Value)
    (hdoc : doc tb m inst = .ok d)
    (hnodup : (m.odm_fields.map (fun kv => kv.2.key_name)).Nodup)
    (hmem : (k, .reference key target) ∈ m.odm_fields)
    (hlk : alookup inst k = some (.vdoc sub))
    (hid : alookup sub "id" = some idv) :
    alookup d key = some idv := by
  cases m with
  | mk fl bs dfl =>
    have := doc_fields_lookup tb bs inst fl d hdoc hnodup k _ hmem
    simp only [ODMBaseField.key_name] at this
    rw [this]
    simp [docFieldEnc, hlk, hid]

theorem claim_C2_reference_key_literal_id_witness :
    doc tbEx pSchemaId pInstId = .ok [("author", .vid 7)] ∧
    alookup [("author", Value.vid 7)] "author" = some (Value.vid 7) :=
  ⟨rfl,
   claim_C2_reference_key_literal_id tbEx pSchemaId pInstId
     [("author", .vid 7)] "r" "author" rSchemaId [("id", .vid 7)] (.vid 7)
     rfl (by decide) (List.Mem.head _) rfl rfl⟩

/-- C5 counterexample: `m5`'s only field `x` has a default in the
validation layer (`parse_obj_fields` alone would fill it in), yet
`parse_doc` on the empty raw document fails with the `KeyError` instead
of using the default. -/
theorem claim_C5_counterexample :
    parse_doc fbId m5 [] = .error (.keyError "x") ∧
    alookup m5.defaults "x" = some (.vstr "dflt") ∧
    parse_obj_fields fbId m5.bson_serialized_fields m5.defaults m5.odm_fields []
      = .ok [("x", .vstr "dflt")] ∧
    parse_doc fbId m5 [] ≠ .ok [("x", Value.vstr "dflt")] := by
  refine ⟨rfl, rfl, rfl, ?_⟩
  intro h
  rw [show parse_doc fbId m5 [] = Except.error (DocError.keyError "x")
    from rfl] at h
  exact Except.noConfusion h

/-- C5 (amended): `parse_doc` on a raw document lacking the `key_name`
of some declared field always fails, whether or not the validation layer
defines a default for the field — the field loop's lookup raises before
the validation layer is ever consulted. -/
theorem claim_C5_missing_key_fails (fb : String → Value → Value)
    (m : ModelSchema) (raw : List (String × Value)) (k : String)
    (f : ODMBaseField) (hmem : (k, f) ∈ m.odm_fields)
    (hnone : alookup raw f.key_name = none) :
    ∃ e, parse_doc fb m raw = .error e :=
  parse_doc_missing_key fb m raw k f hmem hnone

theorem claim_C5_missing_key_fails_witness :
    alookup ([] : List (String × Value)) "x" = none ∧
    (∃ e, parse_doc fbId m5 [] = .error e) :=
  ⟨rfl,
   claim_C5_missing_key_fails fbId m5 [] "x" (.field false "x")
     (List.Mem.head _) rfl⟩

/-- C8: an annotated field whose declared type carries the
`BSONSerializedField` marker base is recorded in the derived class's
`__bson_serialized_fields__`, and `doc` emits the field's type's
`to_bson` conversion applied to the materialized value under the field's
`key_name`. -/
theorem claim_C8_custom_serialization :
    (∀ (cb : ClassBody) (s : DerivedModel), derive cb = .ok s →
      ∀ kv ∈ substAnns cb.anns, is_valid_odm_field kv.1 = true →
        kv.2.isUntouchedType = false → kv.2.hasBsonBase = true →
        kv.1 ∈ s.bson_serialized_fields) ∧
    (∀ (tb : String → Value → Value) (m : ModelSchema)
        (inst d : List (String × Value)) (k : String) (p : Bool)
        (key : String) (v : Value),
      doc tb m inst = .ok d →
      (m.odm_fields.map (fun kv => kv.2.key_name)).Nodup →
      (k, .field p key) ∈ m.odm_fields →
      m.bson_serialized_fields.contains k = true →
      alookup inst k = some v →
      alookup d key = some (tb k v)) := by
  refine ⟨derive_bson_mem, ?_⟩
  intro tb m inst d k p key v hdoc hnodup hmem hbson hlk
  cases m with
  | mk fl bs dfl =>
    have hbson2 : bs.contains k = true := hbson
    have := doc_fields_lookup tb bs inst fl d hdoc hnodup k _ hmem
    simp only [ODMBaseField.key_name] at this
    rw [this]
    simp only [docFieldEnc, hlk, hbson2, ite_true]

theorem claim_C8_custom_serialization_witness :
    derive cbBson = .ok cbBsonDerived ∧
    "data" ∈ cbBsonDerived.bson_serialized_fields ∧
    doc tbEx m1 instEx = .ok [("_id", .vid 1), ("name", .vstr "n"),
      ("payload", .vdoc [("b", .vstr "z")])] ∧
    alookup [("_id", Value.vid 1), ("name", Value.vstr "n"),
      ("payload", Value.vdoc [("b", Value.vstr "z")])] "payload"
      = some (tbEx "data" (.vstr "z")) :=
  ⟨rfl,
   claim_C8_custom_serialization.1 cbBson cbBsonDerived rfl
     ("data", .plain "Bin" true) (List.Mem.head _) rfl rfl rfl,
   rfl,
   claim_C8_custom_serialization.2 tbEx m1 instEx
     [("_id", .vid 1), ("name", .vstr "n"), ("payload", .vdoc [("b", .vstr "z")])]
     "data" false "payload" (.vstr "z") rfl (by decide)
     (List.Mem.tail _ (List.Mem.tail _ (List.Mem.head _))) rfl rfl⟩

/-- C9: `parse_doc` reads only the declared key names — two raw
documents agreeing on every declared field's `key_name` decode
identically, and a key named by no descriptor is silently ignored. -/
theorem claim_C9_only_declared_keys :
    (∀ (fb : String → Value → Value) (m : ModelSchema)
        (r1 r2 : List (String × Value)),
      (∀ kv ∈ m.odm_fields, alookup r1 kv.2.key_name = alookup r2 kv.2.key_name) →
      parse_doc fb m r1 = parse_doc fb m r2) ∧
    (∀ (fb : String → Value → Value) (m : ModelSchema) (k : String)
        (v : Value) (raw : List (String × Value)),
      k ∉ m.odm_fields.map (fun kv => kv.2.key_name) →
      parse_doc fb m ((k, v) :: raw) = parse_doc fb m raw) :=
  ⟨parse_doc_congr, parse_doc_extra_key⟩

theorem claim_C9_only_declared_keys_witness :
    alookup r1C9 "x" = alookup r2C9 "x" ∧
    parse_doc fbId mC9 r1C9 = parse_doc fbId mC9 r2C9 ∧
    parse_doc fbId mC9 (("junk", Value.vint 0) :: r2C9) = parse_doc fbId mC9 r2C9 :=
  ⟨rfl,
   claim_C9_only_declared_keys.1 fbId mC9 r1C9 r2C9
     (by intro kv hkv; fin_cases hkv; rfl),
   claim_C9_only_declared_keys.2 fbId mC9 "junk" (.vint 0) r2C9 (by decide)⟩

end Odmantic
